import Mathlib

/-!
# Verification of the SIGIR 2019 eCom challenge evaluation script

Shallow embedding of `src/evaluation_script/main.py` from
`uporwal/sigir-2019-ecom-challenge`, together with theorems settling the
frozen claims about it.

Modelling conventions:
* A file handle is represented by the list of its lines, exactly as Python's
  line iteration yields them (each line possibly carrying its trailing
  newline); `PyFile` bundles the path (used only for extension detection)
  with the lines.
* Python dictionaries are insertion-ordered association lists
  (`List (κ × ν)`); `insertA` overwrites in place (Python assignment
  semantics) and `findA` looks a key up.  Python sets that are only tested
  for membership are plain lists with de-duplicating insertion
  (`setInsert`).
* Python exceptions (`StopIteration` from `next` on an empty file,
  `KeyError` from `dict[k]` on a missing key, `ZeroDivisionError`,
  `UnboundLocalError` for a local read before assignment) are modelled with
  `Except String`; the string records which exception the Python code would
  raise.  On an error path the partially mutated module-level state is not
  tracked (no claim observes it).
* Python numbers appearing in metric formulas are embedded as rationals.
-/

deriving instance DecidableEq for Except

namespace SigirEval

/-- Python's `line.strip("\n")`: remove every leading and trailing
newline character. -/
def pyStrip (s : String) : String :=
  String.mk (((s.data.dropWhile (· = '\n')).reverse.dropWhile (· = '\n')).reverse)

/-- Python's `str.split(sep)` for a one-character separator, on the
character list of the string: splitting the empty string yields `[""]`,
and `n` separators yield `n + 1` fields. -/
def splitChar (sep : Char) : List Char → List (List Char)
  | [] => [[]]
  | c :: rest =>
      let r := splitChar sep rest
      if c = sep then [] :: r
      else
        match r with
        | [] => [[c]]
        | w :: ws => (c :: w) :: ws

/-- `line.strip("\n").split("\t")` — the row parsing applied to every line
of either file. -/
def parseLine (s : String) : List String :=
  (splitChar '\t' (pyStrip s).data).map fun cs => String.mk cs

/-- Lookup in an insertion-ordered association list (Python `d[k]` /
`k in d`, first matching key). -/
def findA {α β : Type} [DecidableEq α] (m : List (α × β)) (k : α) : Option β :=
  match m with
  | [] => none
  | (k', v) :: rest => if k' = k then some v else findA rest k

/-- Python `d[k] = v` on an insertion-ordered association list: overwrite
the existing binding in place, or append a new one. -/
def insertA {α β : Type} [DecidableEq α] (m : List (α × β)) (k : α) (v : β) :
    List (α × β) :=
  match m with
  | [] => [(k, v)]
  | (k', v') :: rest => if k' = k then (k, v) :: rest else (k', v') :: insertA rest k v

/-- Python `s.add(a)` on a set represented as a duplicate-free list. -/
def setInsert {α : Type} [DecidableEq α] (s : List α) (a : α) : List α :=
  if a ∈ s then s else s ++ [a]

/-- Modelled from the spec: `evaluation_script/utils.py` is not under
`src/`; the spec (§3 "Confusion Accumulator") describes `BaseMetrics` as
four non-negative integer counters `{tp, fp, tn, fn}`, created at zero and
mutated additively. -/
structure BaseMetrics where
  tp : ℕ
  fp : ℕ
  tn : ℕ
  fn : ℕ
deriving DecidableEq, Repr

def BaseMetrics.init : BaseMetrics := ⟨0, 0, 0, 0⟩

def BaseMetrics.add_tp (m : BaseMetrics) (n : ℕ) : BaseMetrics := { m with tp := m.tp + n }

def BaseMetrics.add_fp (m : BaseMetrics) (n : ℕ) : BaseMetrics := { m with fp := m.fp + n }

def BaseMetrics.add_tn (m : BaseMetrics) (n : ℕ) : BaseMetrics := { m with tn := m.tn + n }

def BaseMetrics.add_fn (m : BaseMetrics) (n : ℕ) : BaseMetrics := { m with fn := m.fn + n }

/-- Modelled from the spec: derived-metric formulas of §4.3, missing with
`utils.py`.  The spec's recommended division-by-zero policy
("Pick define-as-zero as default") coincides with Lean's `q / 0 = 0`. -/
def BaseMetrics.calculate_precision (m : BaseMetrics) : ℚ :=
  (m.tp : ℚ) / ((m.tp : ℚ) + (m.fp : ℚ))

/-- Modelled from the spec: recall = tp / (tp + fn). -/
def BaseMetrics.calculate_recall (m : BaseMetrics) : ℚ :=
  (m.tp : ℚ) / ((m.tp : ℚ) + (m.fn : ℚ))

/-- Modelled from the spec: fpr = fp / (fp + tn). -/
def BaseMetrics.calculate_fpr (m : BaseMetrics) : ℚ :=
  (m.fp : ℚ) / ((m.fp : ℚ) + (m.tn : ℚ))

/-- Modelled from the spec: accuracy = (tp + tn) / (tp + tn + fp + fn). -/
def BaseMetrics.calculate_accuracy (m : BaseMetrics) : ℚ :=
  ((m.tp : ℚ) + (m.tn : ℚ)) / ((m.tp : ℚ) + (m.tn : ℚ) + (m.fp : ℚ) + (m.fn : ℚ))

/-- Modelled from the spec: f1 = 2·precision·recall / (precision + recall). -/
def BaseMetrics.calculate_f1 (m : BaseMetrics) : ℚ :=
  2 * m.calculate_precision * m.calculate_recall /
    (m.calculate_precision + m.calculate_recall)

/-- Modelled from the spec: `utils.py`'s `Metrics` record (§3 "Per-query
metrics record"), the five derived figures, zero-initialised. -/
structure Metrics where
  precision : ℚ
  «recall» : ℚ
  fpr : ℚ
  accuracy : ℚ
  f1 : ℚ
deriving DecidableEq, Repr

def Metrics.init : Metrics := ⟨0, 0, 0, 0, 0⟩

/-- A `(query_id, doc_id)` pair, the key of the judgment table. -/
abbrev QDKey := String × String

/-- The three module-level mutable objects of `main.py`:
`query_level_base_metrics`, `query_level_metrics`,
`documents_with_ground_truth`. -/
structure EvalState where
  query_level_base_metrics : List (String × BaseMetrics)
  query_level_metrics : List (String × Metrics)
  documents_with_ground_truth : List String
deriving DecidableEq, Repr

def EvalState.init : EvalState := ⟨[], [], []⟩

/-- `query_level_base_metrics[query_id].add_x(1)`: a `KeyError`-raising
lookup followed by an in-place mutation of the stored accumulator. -/
def qlbmUpdate (st : EvalState) (q : String) (f : BaseMetrics → BaseMetrics) :
    Except String EvalState :=
  match findA st.query_level_base_metrics q with
  | none => .error "KeyError: query_level_base_metrics"
  | some m =>
      .ok { st with query_level_base_metrics := insertA st.query_level_base_metrics q (f m) }

/-- `populate_index_map` (main.py:69–87): read the first line only, strip
newlines, split on tab, and map every column position `1 ≤ i < len(arr)`
to the token `arr[i]`. -/
def populate_index_map (infile : List String) : List (ℕ × String) :=
  match infile with
  | [] => []
  | line :: _ =>
      let arr := parseLine line
      (List.range' 1 (arr.length - 1)).foldl (fun m i => insertA m i (arr.getD i "")) []

/-- Column loop of `populate_ground_truth` (main.py:179–189): for each
column position `i` of a body row, a non-"0" cell adds the document to the
judged set, resolves the query via the index (`KeyError` if unmapped),
stores the cell in the judgment table, and allocates zeroed per-query
records on the first judgment for that query. -/
def truthCols (index : List (ℕ × String)) (doc_id : String) (arr : List String) :
    List ℕ → List (QDKey × String) × EvalState →
    Except String (List (QDKey × String) × EvalState)
  | [], acc => .ok acc
  | i :: rest, (results, st) =>
      if arr.getD i "" ≠ "0" then
        let st1 : EvalState :=
          { st with documents_with_ground_truth :=
              setInsert st.documents_with_ground_truth doc_id }
        match findA index i with
        | none => .error "KeyError: index"
        | some query_id =>
            let results1 := insertA results (query_id, doc_id) (arr.getD i "")
            let st2 : EvalState :=
              if (findA st1.query_level_base_metrics query_id).isSome then st1
              else
                { st1 with
                    query_level_base_metrics :=
                      insertA st1.query_level_base_metrics query_id BaseMetrics.init,
                    query_level_metrics :=
                      insertA st1.query_level_metrics query_id Metrics.init }
            truthCols index doc_id arr rest (results1, st2)
      else truthCols index doc_id arr rest (results, st)

/-- Row loop of `populate_ground_truth` (main.py:174–189). -/
def truthRows (index : List (ℕ × String)) :
    List String → List (QDKey × String) × EvalState →
    Except String (List (QDKey × String) × EvalState)
  | [], acc => .ok acc
  | line :: rest, acc => do
      let arr := parseLine line
      let acc1 ← truthCols index (arr.getD 0 "") arr (List.range' 1 (arr.length - 1)) acc
      truthRows index rest acc1

/-- `populate_ground_truth` (main.py:156–190): build the column index from
the file, skip the header (`next(f)` raising `StopIteration` on an empty
file), then process every body row. -/
def populate_ground_truth (infile : List String) (st : EvalState) :
    Except String (List (QDKey × String) × EvalState) :=
  let index := populate_index_map infile
  match infile with
  | [] => .error "StopIteration"
  | _ :: rows => truthRows index rows ([], st)

/-- Column loop of `calculate_base_metrics` (main.py:118–139): resolve the
query id for position `i` (`KeyError` on an unmapped position), and when
`(query_id, doc_id)` is a judged pair not yet scored, mark it seen and
classify the predicted cell against the truth value, updating the global
and the per-query accumulators. -/
def predCols (index : List (ℕ × String)) (truth : List (QDKey × String))
    (doc_id : String) (arr : List String) :
    List ℕ → BaseMetrics × EvalState × List QDKey →
    Except String (BaseMetrics × EvalState × List QDKey)
  | [], acc => .ok acc
  | i :: rest, (g, st, seen) =>
      match findA index i with
      | none => .error "KeyError: index"
      | some query_id =>
          match findA truth (query_id, doc_id) with
          | none => predCols index truth doc_id arr rest (g, st, seen)
          | some tv =>
              if (query_id, doc_id) ∈ seen then
                predCols index truth doc_id arr rest (g, st, seen)
              else
                let seen1 := setInsert seen (query_id, doc_id)
                if tv = arr.getD i "" then
                  if arr.getD i "" = "1" then do
                    let st1 ← qlbmUpdate st query_id (fun m => m.add_tp 1)
                    predCols index truth doc_id arr rest (g.add_tp 1, st1, seen1)
                  else do
                    let st1 ← qlbmUpdate st query_id (fun m => m.add_tn 1)
                    predCols index truth doc_id arr rest (g.add_tn 1, st1, seen1)
                else
                  if tv = "1" then do
                    let st1 ← qlbmUpdate st query_id (fun m => m.add_fn 1)
                    predCols index truth doc_id arr rest (g.add_fn 1, st1, seen1)
                  else do
                    let st1 ← qlbmUpdate st query_id (fun m => m.add_fp 1)
                    predCols index truth doc_id arr rest (g.add_fp 1, st1, seen1)

/-- Row loop of `calculate_base_metrics` (main.py:112–139): rows whose
document identifier has no judgment are skipped wholesale. -/
def predRows (index : List (ℕ × String)) (truth : List (QDKey × String)) :
    List String → BaseMetrics × EvalState × List QDKey →
    Except String (BaseMetrics × EvalState × List QDKey)
  | [], acc => .ok acc
  | line :: rest, (g, st, seen) =>
      let arr := parseLine line
      if arr.getD 0 "" ∈ st.documents_with_ground_truth then do
        let acc1 ← predCols index truth (arr.getD 0 "") arr
          (List.range' 1 (arr.length - 1)) (g, st, seen)
        predRows index truth rest acc1
      else predRows index truth rest (g, st, seen)

/-- Final sweep of `calculate_base_metrics` (main.py:143–152): every judged
pair never seen in the prediction file is imputed as a miss — `fn` when the
truth value is "1", `fp` otherwise, in both scopes.  Iterating the entries
of the judgment table is Python's iteration over `truth.keys()` followed by
the (always succeeding) lookup `truth[(query_id, doc_id)]`. -/
def penalizeLoop (seen : List QDKey) :
    List (QDKey × String) → BaseMetrics × EvalState →
    Except String (BaseMetrics × EvalState)
  | [], acc => .ok acc
  | (k, v) :: rest, (g, st) =>
      if k ∈ seen then penalizeLoop seen rest (g, st)
      else
        if v = "1" then do
          let st1 ← qlbmUpdate st k.1 (fun m => m.add_fn 1)
          penalizeLoop seen rest (g.add_fn 1, st1)
        else do
          let st1 ← qlbmUpdate st k.1 (fun m => m.add_fp 1)
          penalizeLoop seen rest (g.add_fp 1, st1)

/-- `calculate_base_metrics` (main.py:89–154). -/
def calculate_base_metrics (infile : List String) (truth : List (QDKey × String))
    (st : EvalState) : Except String (BaseMetrics × EvalState) :=
  let index := populate_index_map infile
  match infile with
  | [] => .error "StopIteration"
  | _ :: rows => do
      let (g, st1, seen) ← predRows index truth rows (BaseMetrics.init, st, [])
      penalizeLoop seen truth (g, st1)

/-- The five derived figures main.py:48–52 store for one query. -/
def metricsFrom (bm : BaseMetrics) : Metrics :=
  { precision := bm.calculate_precision
    «recall» := bm.calculate_recall
    fpr := bm.calculate_fpr
    accuracy := bm.calculate_accuracy
    f1 := bm.calculate_f1 }

/-- First loop of `calculate_query_level_metrics` (main.py:46–52): store
each judged query's five derived metrics, computed from its base metrics,
into `query_level_metrics` (a `KeyError`-raising subscript; the five field
assignments are coalesced into one record write, which is equivalent since
the base metrics do not change between them). -/
def qlmLoop1 : List (String × BaseMetrics) → EvalState → Except String EvalState
  | [], st => .ok st
  | (q, bm) :: rest, st =>
      match findA st.query_level_metrics q with
      | none => .error "KeyError: query_level_metrics"
      | some _ =>
          qlmLoop1 rest
            { st with query_level_metrics := insertA st.query_level_metrics q (metricsFrom bm) }

/-- Second loop of `calculate_query_level_metrics` (main.py:54–59): sum the
five per-query metrics over the judged queries. -/
def qlmLoop2 (st : EvalState) :
    List (String × BaseMetrics) → ℚ × ℚ × ℚ × ℚ × ℚ →
    Except String (ℚ × ℚ × ℚ × ℚ × ℚ)
  | [], acc => .ok acc
  | (q, _) :: rest, (p, r, f, a, f1) =>
      match findA st.query_level_metrics q with
      | none => .error "KeyError: query_level_metrics"
      | some mm =>
          qlmLoop2 st rest
            (p + mm.precision, r + mm.«recall», f + mm.fpr, a + mm.accuracy, f1 + mm.f1)

/-- `calculate_query_level_metrics` (main.py:23–67): populate the per-query
metric records, sum them, and divide each sum by the number of judged
queries (Python would raise `ZeroDivisionError` if that count were 0). -/
def calculate_query_level_metrics (st : EvalState) :
    Except String ((ℚ × ℚ × ℚ × ℚ × ℚ) × EvalState) := do
  let total := st.query_level_base_metrics.length
  let st1 ← qlmLoop1 st.query_level_base_metrics st
  let (p, r, f, a, f1) ← qlmLoop2 st1 st.query_level_base_metrics (0, 0, 0, 0, 0)
  if total = 0 then .error "ZeroDivisionError"
  else .ok ((p / total, r / total, f / total, a / total, f1 / total), st1)

/-- A file as the evaluation driver sees it: a path (used only for
extension detection) and the lines the external Tabular Reader yields. -/
structure PyFile where
  path : String
  lines : List String
deriving DecidableEq, Repr

/-- Modelled from the spec: `utils.py`'s `get_file_extension` is not under
`src/`; per §6 the format is detected by file extension (the text after
the last dot), compared against "tsv" and "gz". -/
def get_file_extension (filename : String) : String :=
  ((splitChar '.' filename.data).map fun cs => String.mk cs).getLastD ""

/-- `utils.py`'s `open_file` is the external Tabular Reader (out of scope
per the spec): it yields the lines of the file. -/
def open_file (f : PyFile) : List String := f.lines

/-- The twelve-figure report of `evaluate` (main.py:264–281). -/
structure Output where
  global_precision : ℚ
  global_recall : ℚ
  global_f1 : ℚ
  global_tpr : ℚ
  global_fpr : ℚ
  global_accuracy : ℚ
  average_precision : ℚ
  average_recall : ℚ
  average_f1 : ℚ
  average_tpr : ℚ
  average_fpr : ℚ
  average_accuracy : ℚ
deriving DecidableEq, Repr

/-- Construction of the output record (main.py:264–281).  The locals
`accuracy` and `qa_accuracy` are, unlike the other ten figures, never
initialised at the top of `evaluate` (main.py:235–242); reading them on a
path that skipped scoring raises Python's `UnboundLocalError` at this
point, modelled by `Option ℚ` locals. -/
def buildOutput (precision rec fpr f1 : ℚ) (accuracy : Option ℚ)
    (qa_precision qa_recall qa_fpr qa_f1 : ℚ) (qa_accuracy : Option ℚ) :
    Except String Output :=
  match accuracy, qa_accuracy with
  | some a, some qa =>
      .ok { global_precision := precision
            global_recall := rec
            global_f1 := f1
            global_tpr := rec
            global_fpr := fpr
            global_accuracy := a
            average_precision := qa_precision
            average_recall := qa_recall
            average_f1 := qa_f1
            average_tpr := qa_recall
            average_fpr := qa_fpr
            average_accuracy := qa }
  | none, _ => .error "UnboundLocalError: accuracy"
  | some _, none => .error "UnboundLocalError: qa_accuracy"

/-- `evaluate` (main.py:192–283).  The incoming `EvalState` is the
module-level state left by any previous invocation; the first three
statements of the body clear it.  On a Python-exception path the returned
state is not tracked (modelled as the cleared state; no claim observes
it). -/
def evaluate (test_annotation_file user_submission_file : PyFile)
    (phase_codename : String) (_st0 : EvalState) :
    Except String Output × EvalState :=
  let st := EvalState.init
  if phase_codename = "unsupervised" ∨ phase_codename = "supervised" ∨
      phase_codename = "final" then
    match populate_ground_truth (open_file test_annotation_file) st with
    | .error e => (.error e, EvalState.init)
    | .ok (truth, st1) =>
        if st1.query_level_base_metrics.length > 0 then
          if get_file_extension user_submission_file.path = "tsv" ∨
              get_file_extension user_submission_file.path = "gz" then
            match calculate_base_metrics (open_file user_submission_file) truth st1 with
            | .error e => (.error e, EvalState.init)
            | .ok (g, st2) =>
                match calculate_query_level_metrics st2 with
                | .error e => (.error e, EvalState.init)
                | .ok ((qa_p, qa_r, qa_fpr, qa_acc, qa_f1), st3) =>
                    (buildOutput g.calculate_precision g.calculate_recall
                      g.calculate_fpr g.calculate_f1 (some g.calculate_accuracy)
                      qa_p qa_r qa_fpr qa_f1 (some qa_acc), st3)
          else (buildOutput 0 0 0 0 none 0 0 0 0 none, st1)
        else (buildOutput 0 0 0 0 none 0 0 0 0 none, st1)
  else (buildOutput 0 0 0 0 none 0 0 0 0 none, EvalState.init)

/-! ## Association-list lemmas -/

theorem findA_insertA {α β : Type} [DecidableEq α] (m : List (α × β)) (k k' : α) (v : β) :
    findA (insertA m k v) k' = if k' = k then some v else findA m k' := by
  induction m with
  | nil =>
      by_cases h : k' = k
      · subst h; simp [insertA, findA]
      · have h' : ¬ k = k' := fun e => h e.symm
        simp [insertA, findA, h, h']
  | cons p rest ih =>
      obtain ⟨k₀, v₀⟩ := p
      by_cases h0 : k₀ = k
      · subst h0
        by_cases h1 : k' = k₀
        · subst h1; simp [insertA, findA]
        · have h1' : ¬ k₀ = k' := fun e => h1 e.symm
          simp [insertA, findA, h1, h1']
      · by_cases h1 : k₀ = k'
        · subst h1
          have h2 : ¬ k₀ = k := h0
          simp [insertA, findA, h0, h2]
        · simp [insertA, findA, h0, h1, ih]

theorem findA_mem {α β : Type} [DecidableEq α] {m : List (α × β)} {k : α} {v : β}
    (h : findA m k = some v) : (k, v) ∈ m := by
  induction m with
  | nil => simp [findA] at h
  | cons p rest ih =>
      obtain ⟨k₀, v₀⟩ := p
      by_cases h0 : k₀ = k
      · subst h0
        rw [findA, if_pos rfl] at h
        have hv : v₀ = v := Option.some.inj h
        subst hv
        exact List.mem_cons_self _ _
      · rw [findA, if_neg h0] at h
        exact List.mem_cons_of_mem _ (ih h)

theorem mem_keys_of_findA {α β : Type} [DecidableEq α] {m : List (α × β)} {k : α} {v : β}
    (h : findA m k = some v) : k ∈ m.map Prod.fst := by
  have := findA_mem h
  exact List.mem_map.2 ⟨(k, v), this, rfl⟩

theorem findA_isSome_insertA {α β : Type} [DecidableEq α] (m : List (α × β)) (k k' : α)
    (v : β) (h : (findA m k').isSome) : (findA (insertA m k v) k').isSome := by
  rw [findA_insertA]
  by_cases hk : k' = k
  · simp [hk]
  · simpa [hk] using h

theorem setInsert_of_not_mem {α : Type} [DecidableEq α] {s : List α} {a : α} (h : a ∉ s) :
    setInsert s a = s ++ [a] := by
  simp [setInsert, h]

/-- Lookup characterization of the index-building fold of
`populate_index_map`. -/
theorem findA_foldl_range' (arr : List String) :
    ∀ (n s : ℕ) (m : List (ℕ × String)) (i : ℕ),
      findA ((List.range' s n).foldl (fun m i => insertA m i (arr.getD i "")) m) i =
        if s ≤ i ∧ i < s + n then some (arr.getD i "") else findA m i := by
  intro n
  induction n with
  | zero =>
      intro s m i
      have hneg : ¬ (s ≤ i ∧ i < s + 0) := by omega
      rw [if_neg hneg]
      rfl
  | succ n ih =>
      intro s m i
      rw [List.range'_succ, List.foldl_cons, ih, findA_insertA]
      by_cases h1 : s + 1 ≤ i ∧ i < s + 1 + n
      · have h2 : s ≤ i ∧ i < s + (n + 1) := by omega
        rw [if_pos h1, if_pos h2]
      · rw [if_neg h1]
        by_cases h3 : i = s
        · subst h3
          have h4 : i ≤ i ∧ i < i + (n + 1) := by omega
          rw [if_pos rfl, if_pos h4]
        · have h5 : ¬ (s ≤ i ∧ i < s + (n + 1)) := by
            intro h6
            exact h1 (by omega)
          rw [if_neg h3, if_neg h5]

/-- Lookup characterization of `populate_index_map` on a non-empty file. -/
theorem populate_index_map_find (line : String) (rest : List String) (i : ℕ) :
    findA (populate_index_map (line :: rest)) i =
      if 1 ≤ i ∧ i < (parseLine line).length then some ((parseLine line).getD i "")
      else none := by
  have h := findA_foldl_range' (parseLine line) ((parseLine line).length - 1) 1 [] i
  simp only [populate_index_map]
  rw [h]
  have hiff : (1 ≤ i ∧ i < 1 + ((parseLine line).length - 1)) ↔
      (1 ≤ i ∧ i < (parseLine line).length) := by
    cases hl : (parseLine line).length with
    | zero => constructor <;> (intro h1; omega)
    | succ n => constructor <;> (intro h1; omega)
  by_cases hc : 1 ≤ i ∧ i < (parseLine line).length
  · rw [if_pos (hiff.2 hc), if_pos hc]
  · rw [if_neg (fun h1 => hc (hiff.1 h1)), if_neg hc]
    simp [findA]

/-- **C8.** `populate_index_map` reads only the first line (the result does
not depend on the remaining lines), strips newlines from it, splits it on
the tab character, and the returned mapping binds exactly the positions
`1 ≤ i < number of tokens`, each to the `i`-th token verbatim — position 0
is never bound, and the tokens are not transformed in any way. -/
theorem C8_populate_index_map_spec (line : String) (rest rest' : List String) (i : ℕ) :
    populate_index_map (line :: rest) = populate_index_map (line :: rest')
    ∧ findA (populate_index_map (line :: rest)) i =
        (if 1 ≤ i ∧ i < (parseLine line).length then
          some ((parseLine line).getD i "") else none) := by
  exact ⟨rfl, populate_index_map_find line rest i⟩

/-! ## C1: classification of a scored judged pair -/

theorem except_bind_ok {ε α β : Type} (x : α) (f : α → Except ε β) :
    (Except.ok x >>= f : Except ε β) = f x := rfl

/-- The claim's classification rule: compare the predicted cell to the
truth value by exact string equality; equal and truth "1" → tp, equal and
truth not "1" → tn, unequal and truth "1" → fn, unequal and truth not
"1" → fp. -/
def classifyBump (tv cell : String) (m : BaseMetrics) : BaseMetrics :=
  if tv = cell then
    (if tv = "1" then m.add_tp 1 else m.add_tn 1)
  else
    (if tv = "1" then m.add_fn 1 else m.add_fp 1)

/-- **C1.** When the scorer reaches a column whose `(query, doc)` pair is
judged (has a truth value `tv`) and not yet scored, it marks the pair seen
and applies the exact-string-equality classification of `classifyBump` —
tp when cell = tv = "1", tn when cell = tv ≠ "1", fn when cell ≠ tv = "1",
fp when cell ≠ tv ≠ "1" — to the global accumulator and, identically, to
that query's accumulator, then continues with the remaining columns. -/
theorem C1_scored_pair_classified (index : List (ℕ × String))
    (truth : List (QDKey × String)) (doc_id : String) (arr : List String)
    (i : ℕ) (rest : List ℕ) (g m : BaseMetrics) (st : EvalState)
    (seen : List QDKey) (q tv : String)
    (hq : findA index i = some q)
    (htv : findA truth (q, doc_id) = some tv)
    (hseen : (q, doc_id) ∉ seen)
    (hm : findA st.query_level_base_metrics q = some m) :
    predCols index truth doc_id arr (i :: rest) (g, st, seen) =
      predCols index truth doc_id arr rest
        (classifyBump tv (arr.getD i "") g,
         { st with query_level_base_metrics :=
             insertA st.query_level_base_metrics q (classifyBump tv (arr.getD i "") m) },
         seen ++ [(q, doc_id)]) := by
  by_cases hc : tv = arr.getD i ""
  · have hc' : tv = arr[i]?.getD "" := by simpa using hc
    by_cases h1 : arr.getD i "" = "1"
    · have h1' : arr[i]?.getD "" = "1" := by simpa using h1
      have h2 : tv = "1" := hc.trans h1
      simp [predCols, hq, htv, hseen, qlbmUpdate, hm, classifyBump, setInsert, hc', h1', h2,
        except_bind_ok]
    · have h1' : ¬ arr[i]?.getD "" = "1" := by simpa using h1
      have h2 : ¬ tv = "1" := fun e => h1 (hc.symm.trans e)
      simp [predCols, hq, htv, hseen, qlbmUpdate, hm, classifyBump, setInsert, hc', h1', h2,
        except_bind_ok]
  · have hc' : ¬ tv = arr[i]?.getD "" := by simpa using hc
    by_cases h1 : tv = "1"
    · have hc'' : ¬ ("1" : String) = arr[i]?.getD "" := fun e => hc' (h1.trans e)
      simp [predCols, hq, htv, hseen, qlbmUpdate, hm, classifyBump, setInsert, hc', hc'', h1,
        except_bind_ok]
    · simp [predCols, hq, htv, hseen, qlbmUpdate, hm, classifyBump, setInsert, hc', h1,
        except_bind_ok]

/-- Witness for C1 at a concrete scored pair. -/
theorem C1_scored_pair_classified_witness :
    findA [(1, "q1")] 1 = some "q1"
    ∧ findA [(("q1", "d1"), "1")] (("q1" : String), ("d1" : String)) = some "1"
    ∧ (("q1" : String), ("d1" : String)) ∉ ([] : List QDKey)
    ∧ findA [("q1", BaseMetrics.init)] "q1" = some BaseMetrics.init
    ∧ predCols [(1, "q1")] [(("q1", "d1"), "1")] "d1" ["d1", "1"] [1]
        (BaseMetrics.init, ⟨[("q1", BaseMetrics.init)], [("q1", Metrics.init)], ["d1"]⟩, []) =
      predCols [(1, "q1")] [(("q1", "d1"), "1")] "d1" ["d1", "1"] []
        (classifyBump "1" (["d1", "1"].getD 1 "") BaseMetrics.init,
         { (⟨[("q1", BaseMetrics.init)], [("q1", Metrics.init)], ["d1"]⟩ : EvalState) with
             query_level_base_metrics :=
               insertA [("q1", BaseMetrics.init)] "q1"
                 (classifyBump "1" (["d1", "1"].getD 1 "") BaseMetrics.init) },
         [] ++ [(("q1" : String), ("d1" : String))]) :=
  ⟨by decide, by decide, by decide, by decide,
   C1_scored_pair_classified _ _ _ _ _ _ _ _ _ _ _ _
     (by decide) (by decide) (by decide) (by decide)⟩

/-! ## C2: imputation of judged pairs missing from the prediction file -/

theorem except_bind_eq_ok {ε α β : Type} {x : Except ε α} {f : α → Except ε β} {b : β}
    (h : (x >>= f) = .ok b) : ∃ a, x = .ok a ∧ f a = .ok b := by
  cases x with
  | error e => exact Except.noConfusion h
  | ok a => exact ⟨a, rfl, h⟩

theorem qlbmUpdate_eq_ok {st : EvalState} {q : String} {f : BaseMetrics → BaseMetrics}
    {st' : EvalState} (h : qlbmUpdate st q f = .ok st') :
    ∃ m, findA st.query_level_base_metrics q = some m ∧
      st' = { st with query_level_base_metrics :=
                insertA st.query_level_base_metrics q (f m) } := by
  unfold qlbmUpdate at h
  cases hm : findA st.query_level_base_metrics q with
  | none => rw [hm] at h; exact Except.noConfusion h
  | some m => rw [hm] at h; exact ⟨m, rfl, (Except.ok.inj h).symm⟩

/-- Counting characterization of the final sweep `penalizeLoop`: on a
successful run it adds, to the global accumulator and to each query's
accumulator, one `fn` per unseen judged pair with truth "1" and one `fp`
per unseen judged pair with truth ≠ "1", and nothing else. -/
theorem penalizeLoop_spec :
    ∀ (entries : List (QDKey × String)) (seen : List QDKey) (g : BaseMetrics)
      (st : EvalState) (g' : BaseMetrics) (st' : EvalState),
      penalizeLoop seen entries (g, st) = .ok (g', st') →
      (g'.fn = g.fn + entries.countP (fun e => decide (e.1 ∉ seen) && decide (e.2 = "1"))
       ∧ g'.fp = g.fp + entries.countP (fun e => decide (e.1 ∉ seen) && !decide (e.2 = "1"))
       ∧ g'.tp = g.tp ∧ g'.tn = g.tn)
      ∧ ∀ (q : String) (m : BaseMetrics),
          findA st.query_level_base_metrics q = some m →
          ∃ m', findA st'.query_level_base_metrics q = some m'
            ∧ m'.fn = m.fn + entries.countP (fun e =>
                decide (e.1.1 = q) && (decide (e.1 ∉ seen) && decide (e.2 = "1")))
            ∧ m'.fp = m.fp + entries.countP (fun e =>
                decide (e.1.1 = q) && (decide (e.1 ∉ seen) && !decide (e.2 = "1")))
            ∧ m'.tp = m.tp ∧ m'.tn = m.tn := by
  intro entries
  induction entries with
  | nil =>
      intro seen g st g' st' hrun
      simp only [penalizeLoop] at hrun
      obtain ⟨hg, hst⟩ : g = g' ∧ st = st' := by
        have := Except.ok.inj hrun
        exact ⟨congrArg Prod.fst this, congrArg Prod.snd this⟩
      subst hg; subst hst
      refine ⟨⟨by simp, by simp, rfl, rfl⟩, ?_⟩
      intro q m hm
      exact ⟨m, hm, by simp, by simp, rfl, rfl⟩
  | cons e rest ih =>
      intro seen g st g' st' hrun
      obtain ⟨k, v⟩ := e
      simp only [penalizeLoop] at hrun
      by_cases hk : k ∈ seen
      · rw [if_pos hk] at hrun
        obtain ⟨⟨hfn, hfp, htp, htn⟩, hper⟩ := ih seen g st g' st' hrun
        constructor
        · refine ⟨?_, ?_, htp, htn⟩
          · rw [hfn, List.countP_cons]
            simp [hk]
          · rw [hfp, List.countP_cons]
            simp [hk]
        · intro q m hm
          obtain ⟨m', hm', h1, h2, h3, h4⟩ := hper q m hm
          refine ⟨m', hm', ?_, ?_, h3, h4⟩
          · rw [h1, List.countP_cons]; simp [hk]
          · rw [h2, List.countP_cons]; simp [hk]
      · rw [if_neg hk] at hrun
        by_cases hv : v = "1"
        · rw [if_pos hv] at hrun
          obtain ⟨st1, hupd, hrest⟩ := except_bind_eq_ok hrun
          obtain ⟨m0, hm0, hst1⟩ := qlbmUpdate_eq_ok hupd
          subst hst1
          obtain ⟨⟨hfn, hfp, htp, htn⟩, hper⟩ := ih seen (g.add_fn 1) _ g' st' hrest
          constructor
          · refine ⟨?_, ?_, ?_, ?_⟩
            · rw [hfn, List.countP_cons]
              simp [BaseMetrics.add_fn, hk, hv]
              omega
            · rw [hfp, List.countP_cons]
              simp [BaseMetrics.add_fn, hk, hv]
            · rw [htp]; rfl
            · rw [htn]; rfl
          · intro q m hm
            have hfind1 : findA (insertA st.query_level_base_metrics k.1 (m0.add_fn 1)) q =
                if q = k.1 then some (m0.add_fn 1) else findA st.query_level_base_metrics q :=
              findA_insertA _ _ _ _
            by_cases hq : q = k.1
            · have hm0q : findA st.query_level_base_metrics q = some m0 := by
                rw [hq]; exact hm0
              have hmm : m = m0 := Option.some.inj (hm.symm.trans hm0q)
              subst hmm
              obtain ⟨m', hm', h1, h2, h3, h4⟩ := hper q (m.add_fn 1)
                (by
                  show findA (insertA st.query_level_base_metrics k.1 (m.add_fn 1)) q =
                    some (m.add_fn 1)
                  rw [hfind1, if_pos hq])
              refine ⟨m', hm', ?_, ?_, ?_, ?_⟩
              · rw [h1, List.countP_cons]
                simp [BaseMetrics.add_fn, hk, hv, hq]
                omega
              · rw [h2, List.countP_cons]
                simp [BaseMetrics.add_fn, hk, hv, hq]
              · rw [h3]; rfl
              · rw [h4]; rfl
            · obtain ⟨m', hm', h1, h2, h3, h4⟩ := hper q m
                (by
                  show findA (insertA st.query_level_base_metrics k.1 (m0.add_fn 1)) q = some m
                  rw [hfind1, if_neg hq]; exact hm)
              refine ⟨m', hm', ?_, ?_, h3, h4⟩
              · rw [h1, List.countP_cons]
                have : ¬ k.1 = q := fun e => hq e.symm
                simp [this]
              · rw [h2, List.countP_cons]
                have : ¬ k.1 = q := fun e => hq e.symm
                simp [this]
        · rw [if_neg hv] at hrun
          obtain ⟨st1, hupd, hrest⟩ := except_bind_eq_ok hrun
          obtain ⟨m0, hm0, hst1⟩ := qlbmUpdate_eq_ok hupd
          subst hst1
          obtain ⟨⟨hfn, hfp, htp, htn⟩, hper⟩ := ih seen (g.add_fp 1) _ g' st' hrest
          constructor
          · refine ⟨?_, ?_, ?_, ?_⟩
            · rw [hfn, List.countP_cons]
              simp [BaseMetrics.add_fp, hk, hv]
            · rw [hfp, List.countP_cons]
              simp [BaseMetrics.add_fp, hk, hv]
              omega
            · rw [htp]; rfl
            · rw [htn]; rfl
          · intro q m hm
            have hfind1 : findA (insertA st.query_level_base_metrics k.1 (m0.add_fp 1)) q =
                if q = k.1 then some (m0.add_fp 1) else findA st.query_level_base_metrics q :=
              findA_insertA _ _ _ _
            by_cases hq : q = k.1
            · have hm0q : findA st.query_level_base_metrics q = some m0 := by
                rw [hq]; exact hm0
              have hmm : m = m0 := Option.some.inj (hm.symm.trans hm0q)
              subst hmm
              obtain ⟨m', hm', h1, h2, h3, h4⟩ := hper q (m.add_fp 1)
                (by
                  show findA (insertA st.query_level_base_metrics k.1 (m.add_fp 1)) q =
                    some (m.add_fp 1)
                  rw [hfind1, if_pos hq])
              refine ⟨m', hm', ?_, ?_, ?_, ?_⟩
              · rw [h1, List.countP_cons]
                simp [BaseMetrics.add_fp, hk, hv, hq]
              · rw [h2, List.countP_cons]
                simp [BaseMetrics.add_fp, hk, hv, hq]
                omega
              · rw [h3]; rfl
              · rw [h4]; rfl
            · obtain ⟨m', hm', h1, h2, h3, h4⟩ := hper q m
                (by
                  show findA (insertA st.query_level_base_metrics k.1 (m0.add_fp 1)) q = some m
                  rw [hfind1, if_neg hq]; exact hm)
              refine ⟨m', hm', ?_, ?_, h3, h4⟩
              · rw [h1, List.countP_cons]
                have : ¬ k.1 = q := fun e => hq e.symm
                simp [this]
              · rw [h2, List.countP_cons]
                have : ¬ k.1 = q := fun e => hq e.symm
                simp [this]

/-- **C2.** After the prediction file is scanned, the final sweep of
`calculate_base_metrics` imputes a miss for exactly the judged pairs never
scored (not in the seen set): one false negative per such pair with truth
value "1" and one false positive per such pair with truth value ≠ "1",
added both to the global accumulator and to the pair's query's
accumulator; no other counter changes. -/
theorem C2_missing_pairs_imputed (seen : List QDKey) (entries : List (QDKey × String))
    (g : BaseMetrics) (st : EvalState) (g' : BaseMetrics) (st' : EvalState)
    (hrun : penalizeLoop seen entries (g, st) = .ok (g', st')) :
    (g'.fn = g.fn + entries.countP (fun e => decide (e.1 ∉ seen) && decide (e.2 = "1"))
     ∧ g'.fp = g.fp + entries.countP (fun e => decide (e.1 ∉ seen) && !decide (e.2 = "1"))
     ∧ g'.tp = g.tp ∧ g'.tn = g.tn)
    ∧ ∀ (q : String) (m : BaseMetrics),
        findA st.query_level_base_metrics q = some m →
        ∃ m', findA st'.query_level_base_metrics q = some m'
          ∧ m'.fn = m.fn + entries.countP (fun e =>
              decide (e.1.1 = q) && (decide (e.1 ∉ seen) && decide (e.2 = "1")))
          ∧ m'.fp = m.fp + entries.countP (fun e =>
              decide (e.1.1 = q) && (decide (e.1 ∉ seen) && !decide (e.2 = "1")))
          ∧ m'.tp = m.tp ∧ m'.tn = m.tn :=
  penalizeLoop_spec entries seen g st g' st' hrun

/-- Witness for C2: one unseen judged pair with truth "1" is imputed as a
false negative in both scopes. -/
theorem C2_missing_pairs_imputed_witness :
    penalizeLoop [] [((("q" : String), ("d" : String)), "1")]
        (BaseMetrics.init, (⟨[("q", BaseMetrics.init)], [], []⟩ : EvalState)) =
      .ok (⟨0, 0, 0, 1⟩, (⟨[("q", ⟨0, 0, 0, 1⟩)], [], []⟩ : EvalState))
    ∧ (((⟨0, 0, 0, 1⟩ : BaseMetrics).fn = BaseMetrics.init.fn +
          List.countP (fun e => decide (e.1 ∉ ([] : List QDKey)) && decide (e.2 = "1"))
            [((("q" : String), ("d" : String)), "1")]
        ∧ (⟨0, 0, 0, 1⟩ : BaseMetrics).fp = BaseMetrics.init.fp +
          List.countP (fun e => decide (e.1 ∉ ([] : List QDKey)) && !decide (e.2 = "1"))
            [((("q" : String), ("d" : String)), "1")]
        ∧ (⟨0, 0, 0, 1⟩ : BaseMetrics).tp = BaseMetrics.init.tp
        ∧ (⟨0, 0, 0, 1⟩ : BaseMetrics).tn = BaseMetrics.init.tn)
      ∧ ∀ (q : String) (m : BaseMetrics),
          findA (⟨[("q", BaseMetrics.init)], [], []⟩ : EvalState).query_level_base_metrics q
              = some m →
          ∃ m', findA (⟨[("q", ⟨0, 0, 0, 1⟩)], [], []⟩ : EvalState).query_level_base_metrics q
              = some m'
            ∧ m'.fn = m.fn + List.countP (fun e =>
                decide (e.1.1 = q) && (decide (e.1 ∉ ([] : List QDKey)) && decide (e.2 = "1")))
                [((("q" : String), ("d" : String)), "1")]
            ∧ m'.fp = m.fp + List.countP (fun e =>
                decide (e.1.1 = q) && (decide (e.1 ∉ ([] : List QDKey)) && !decide (e.2 = "1")))
                [((("q" : String), ("d" : String)), "1")]
            ∧ m'.tp = m.tp ∧ m'.tn = m.tn) :=
  ⟨by rfl, C2_missing_pairs_imputed [] _ BaseMetrics.init _ _ _ (by rfl)⟩

/-! ## C7: state reset and idempotence of `evaluate` -/

/-- **C7.** `evaluate` clears all process-wide state (the per-query base
metrics, the per-query metrics and the judged-document set) before doing
anything else, so its result does not depend on the module-level state left
by earlier calls; in particular two successive calls with identical inputs
return identical reports. -/
theorem C7_evaluate_state_reset (taf usf : PyFile) (phase : String) :
    (∀ st1 st2 : EvalState, evaluate taf usf phase st1 = evaluate taf usf phase st2)
    ∧ ∀ st : EvalState,
        (evaluate taf usf phase ((evaluate taf usf phase st).2)).1 =
          (evaluate taf usf phase st).1 :=
  ⟨fun _ _ => rfl, fun _ => rfl⟩

/-! ## C4: the no-scoring paths of `evaluate` raise instead of returning -/

/-- **C4 (code bug).** The claim (and the spec) say the three no-scoring
paths — unrecognized phase designator, unsupported prediction-file
extension, zero judged queries — return an all-zero twelve-figure report.
The code initialises only ten of the twelve local figures to 0
(main.py:235–242): `accuracy` and `qa_accuracy` are first assigned inside
the scoring branch (main.py:259, 261), so building the output record at
main.py:272 on any no-scoring path raises `UnboundLocalError` instead of
returning.  This theorem evaluates all three paths on concrete inputs. -/
theorem C4_no_scoring_paths_raise_unbound_local :
    ((evaluate ⟨"truth.tsv", ["doc\tQ1\tQ2\n", "D1\t1\t0\n", "D2\t0\t1\n"]⟩
        ⟨"pred.tsv", ["doc\tQ1\tQ2\n", "D1\t1\t0\n", "D2\t0\t1\n"]⟩
        "dev" EvalState.init).1 = .error "UnboundLocalError: accuracy")
    ∧ ((evaluate ⟨"truth.tsv", ["doc\tQ1\tQ2\n", "D1\t1\t0\n", "D2\t0\t1\n"]⟩
        ⟨"pred.csv", ["doc\tQ1\tQ2\n", "D1\t1\t0\n", "D2\t0\t1\n"]⟩
        "final" EvalState.init).1 = .error "UnboundLocalError: accuracy")
    ∧ ((evaluate ⟨"truth.tsv", ["doc\tQ1\tQ2\n", "D1\t0\t0\n"]⟩
        ⟨"pred.tsv", ["doc\tQ1\tQ2\n", "D1\t1\t0\n"]⟩
        "supervised" EvalState.init).1 = .error "UnboundLocalError: accuracy") :=
  ⟨by decide, by decide, by decide⟩

/-! ## C5: the macro average is the unweighted mean over judged queries -/

theorem qlmLoop1_spec :
    ∀ (l : List (String × BaseMetrics)) (st st' : EvalState),
      qlmLoop1 l st = .ok st' →
      (∀ q, q ∉ l.map Prod.fst →
        findA st'.query_level_metrics q = findA st.query_level_metrics q)
      ∧ ((l.map Prod.fst).Nodup →
          ∀ p ∈ l, findA st'.query_level_metrics p.1 = some (metricsFrom p.2))
      ∧ st'.query_level_base_metrics = st.query_level_base_metrics := by
  intro l
  induction l with
  | nil =>
      intro st st' hrun
      have hst : st = st' := Except.ok.inj hrun
      subst hst
      exact ⟨fun _ _ => rfl, fun _ p hp => absurd hp (List.not_mem_nil p), rfl⟩
  | cons e rest ih =>
      intro st st' hrun
      obtain ⟨q0, bm0⟩ := e
      simp only [qlmLoop1] at hrun
      cases hfind : findA st.query_level_metrics q0 with
      | none => rw [hfind] at hrun; exact Except.noConfusion hrun
      | some mm0 =>
          rw [hfind] at hrun
          obtain ⟨ih1, ih2, ih3⟩ := ih _ _ hrun
          refine ⟨?_, ?_, ih3⟩
          · intro q hq
            have hq0 : ¬ q = q0 := by
              intro h; exact hq (by simp [h])
            have hqr : q ∉ rest.map Prod.fst := by
              intro h; exact hq (by simp [h])
            rw [ih1 q hqr]
            show findA (insertA st.query_level_metrics q0 (metricsFrom bm0)) q = _
            rw [findA_insertA, if_neg hq0]
          · intro hnd p hp
            rw [List.map_cons] at hnd
            have hpair := List.nodup_cons.1 hnd
            rcases List.mem_cons.1 hp with hp0 | hpr
            · subst hp0
              rw [ih1 q0 hpair.1]
              show findA (insertA st.query_level_metrics q0 (metricsFrom bm0)) q0 = _
              rw [findA_insertA, if_pos rfl]
            · exact ih2 hpair.2 p hpr

theorem qlmLoop1_ok :
    ∀ (l : List (String × BaseMetrics)) (st : EvalState),
      (∀ p ∈ l, (findA st.query_level_metrics p.1).isSome) →
      ∃ st', qlmLoop1 l st = .ok st' := by
  intro l
  induction l with
  | nil => intro st _; exact ⟨st, rfl⟩
  | cons e rest ih =>
      intro st hcov
      obtain ⟨q0, bm0⟩ := e
      have h0 : (findA st.query_level_metrics q0).isSome := hcov (q0, bm0) (by simp)
      cases hfind : findA st.query_level_metrics q0 with
      | none => rw [hfind] at h0; exact absurd h0 (by simp)
      | some mm0 =>
          have hcov' : ∀ p ∈ rest,
              (findA (insertA st.query_level_metrics q0 (metricsFrom bm0)) p.1).isSome := by
            intro p hp
            exact findA_isSome_insertA _ _ _ _ (hcov p (List.mem_cons_of_mem _ hp))
          obtain ⟨st', hst'⟩ :=
            ih { st with query_level_metrics :=
                  insertA st.query_level_metrics q0 (metricsFrom bm0) } hcov'
          refine ⟨st', ?_⟩
          simp only [qlmLoop1, hfind]
          exact hst'

theorem qlmLoop2_spec :
    ∀ (l : List (String × BaseMetrics)) (st : EvalState) (a1 a2 a3 a4 a5 : ℚ),
      (∀ p ∈ l, findA st.query_level_metrics p.1 = some (metricsFrom p.2)) →
      qlmLoop2 st l (a1, a2, a3, a4, a5) = .ok
        (a1 + (l.map (fun p => p.2.calculate_precision)).sum,
         a2 + (l.map (fun p => p.2.calculate_recall)).sum,
         a3 + (l.map (fun p => p.2.calculate_fpr)).sum,
         a4 + (l.map (fun p => p.2.calculate_accuracy)).sum,
         a5 + (l.map (fun p => p.2.calculate_f1)).sum) := by
  intro l
  induction l with
  | nil =>
      intro st a1 a2 a3 a4 a5 _
      simp [qlmLoop2]
  | cons e rest ih =>
      intro st a1 a2 a3 a4 a5 hcov
      obtain ⟨q0, bm0⟩ := e
      have h0 : findA st.query_level_metrics q0 = some (metricsFrom bm0) :=
        hcov (q0, bm0) (by simp)
      have hrest : ∀ p ∈ rest, findA st.query_level_metrics p.1 = some (metricsFrom p.2) :=
        fun p hp => hcov p (List.mem_cons_of_mem _ hp)
      simp only [qlmLoop2, h0]
      rw [ih st _ _ _ _ _ hrest]
      simp [metricsFrom]
      refine ⟨by ring, by ring, by ring, by ring, by ring⟩

/-- **C5.** On every successful path, each of the five `average_*` figures
computed by `calculate_query_level_metrics` equals the unweighted
arithmetic mean of that per-query derived metric over exactly the judged
queries (the entries of `query_level_base_metrics`), the divisor being the
number of judged queries — which is at least 1, as `evaluate` only calls
this after checking `len(query_level_base_metrics.keys()) > 0`
(main.py:252). -/
theorem C5_macro_average_is_mean (st : EvalState)
    (hnd : (st.query_level_base_metrics.map Prod.fst).Nodup)
    (hcov : ∀ p ∈ st.query_level_base_metrics, (findA st.query_level_metrics p.1).isSome)
    (hne : st.query_level_base_metrics ≠ []) :
    1 ≤ st.query_level_base_metrics.length
    ∧ ∃ st', calculate_query_level_metrics st = .ok
        (((st.query_level_base_metrics.map (fun p => p.2.calculate_precision)).sum
            / (st.query_level_base_metrics.length : ℚ),
          (st.query_level_base_metrics.map (fun p => p.2.calculate_recall)).sum
            / (st.query_level_base_metrics.length : ℚ),
          (st.query_level_base_metrics.map (fun p => p.2.calculate_fpr)).sum
            / (st.query_level_base_metrics.length : ℚ),
          (st.query_level_base_metrics.map (fun p => p.2.calculate_accuracy)).sum
            / (st.query_level_base_metrics.length : ℚ),
          (st.query_level_base_metrics.map (fun p => p.2.calculate_f1)).sum
            / (st.query_level_base_metrics.length : ℚ)), st') := by
  have hlen : 1 ≤ st.query_level_base_metrics.length := by
    cases hl : st.query_level_base_metrics with
    | nil => exact absurd hl hne
    | cons a l => simp
  refine ⟨hlen, ?_⟩
  obtain ⟨st1, hst1⟩ := qlmLoop1_ok st.query_level_base_metrics st hcov
  obtain ⟨_, hspec2, _⟩ := qlmLoop1_spec st.query_level_base_metrics st st1 hst1
  have hloop2 := qlmLoop2_spec st.query_level_base_metrics st1 0 0 0 0 0 (hspec2 hnd)
  refine ⟨st1, ?_⟩
  have htot : ¬ st.query_level_base_metrics.length = 0 := by omega
  simp only [calculate_query_level_metrics, hst1, except_bind_ok, hloop2, htot,
    if_neg htot]
  simp

/-- Witness for C5 at a one-query state (the spec §8 accumulator
tp=5, fp=0, tn=3, fn=2). -/
theorem C5_macro_average_is_mean_witness :
    ((⟨[("q1", ⟨5, 0, 3, 2⟩)], [("q1", Metrics.init)], []⟩ :
        EvalState).query_level_base_metrics.map Prod.fst).Nodup
    ∧ (∀ p ∈ (⟨[("q1", ⟨5, 0, 3, 2⟩)], [("q1", Metrics.init)], []⟩ :
        EvalState).query_level_base_metrics,
        (findA (⟨[("q1", ⟨5, 0, 3, 2⟩)], [("q1", Metrics.init)], []⟩ :
          EvalState).query_level_metrics p.1).isSome)
    ∧ (⟨[("q1", ⟨5, 0, 3, 2⟩)], [("q1", Metrics.init)], []⟩ :
        EvalState).query_level_base_metrics ≠ []
    ∧ (1 ≤ (⟨[("q1", ⟨5, 0, 3, 2⟩)], [("q1", Metrics.init)], []⟩ :
          EvalState).query_level_base_metrics.length
       ∧ ∃ st', calculate_query_level_metrics
          (⟨[("q1", ⟨5, 0, 3, 2⟩)], [("q1", Metrics.init)], []⟩ : EvalState) = .ok
          ((((⟨[("q1", ⟨5, 0, 3, 2⟩)], [("q1", Metrics.init)], []⟩ :
                EvalState).query_level_base_metrics.map
                (fun p => p.2.calculate_precision)).sum
              / (((⟨[("q1", ⟨5, 0, 3, 2⟩)], [("q1", Metrics.init)], []⟩ :
                EvalState).query_level_base_metrics.length : ℚ)),
            ((⟨[("q1", ⟨5, 0, 3, 2⟩)], [("q1", Metrics.init)], []⟩ :
                EvalState).query_level_base_metrics.map
                (fun p => p.2.calculate_recall)).sum
              / (((⟨[("q1", ⟨5, 0, 3, 2⟩)], [("q1", Metrics.init)], []⟩ :
                EvalState).query_level_base_metrics.length : ℚ)),
            ((⟨[("q1", ⟨5, 0, 3, 2⟩)], [("q1", Metrics.init)], []⟩ :
                EvalState).query_level_base_metrics.map
                (fun p => p.2.calculate_fpr)).sum
              / (((⟨[("q1", ⟨5, 0, 3, 2⟩)], [("q1", Metrics.init)], []⟩ :
                EvalState).query_level_base_metrics.length : ℚ)),
            ((⟨[("q1", ⟨5, 0, 3, 2⟩)], [("q1", Metrics.init)], []⟩ :
                EvalState).query_level_base_metrics.map
                (fun p => p.2.calculate_accuracy)).sum
              / (((⟨[("q1", ⟨5, 0, 3, 2⟩)], [("q1", Metrics.init)], []⟩ :
                EvalState).query_level_base_metrics.length : ℚ)),
            ((⟨[("q1", ⟨5, 0, 3, 2⟩)], [("q1", Metrics.init)], []⟩ :
                EvalState).query_level_base_metrics.map
                (fun p => p.2.calculate_f1)).sum
              / (((⟨[("q1", ⟨5, 0, 3, 2⟩)], [("q1", Metrics.init)], []⟩ :
                EvalState).query_level_base_metrics.length : ℚ))), st')) :=
  ⟨by decide, by decide, by decide,
   C5_macro_average_is_mean _ (by decide) (by decide) (by decide)⟩

/-! ## C6: what `populate_ground_truth` builds -/

theorem mem_setInsert_self {α : Type} [DecidableEq α] (s : List α) (a : α) :
    a ∈ setInsert s a := by
  unfold setInsert
  by_cases h : a ∈ s
  · rwa [if_pos h]
  · rw [if_neg h]; simp

theorem mem_setInsert_of_mem {α : Type} [DecidableEq α] {s : List α} {b : α} (a : α)
    (h : b ∈ s) : b ∈ setInsert s a := by
  unfold setInsert
  by_cases ha : a ∈ s
  · rwa [if_pos ha]
  · rw [if_neg ha]; exact List.mem_append_left _ h

theorem insertA_mem {α β : Type} [DecidableEq α] {m : List (α × β)} {k : α} {v : β}
    {e : α × β} (h : e ∈ insertA m k v) : e = (k, v) ∨ e ∈ m := by
  induction m with
  | nil => simpa [insertA] using h
  | cons p rest ih =>
      obtain ⟨k₀, v₀⟩ := p
      by_cases h0 : k₀ = k
      · subst h0
        rw [insertA, if_pos rfl] at h
        rcases List.mem_cons.1 h with h1 | h1
        · exact Or.inl h1
        · exact Or.inr (List.mem_cons_of_mem _ h1)
      · rw [insertA, if_neg h0] at h
        rcases List.mem_cons.1 h with h1 | h1
        · exact Or.inr (by rw [h1]; exact List.mem_cons_self _ _)
        · rcases ih h1 with h2 | h2
          · exact Or.inl h2
          · exact Or.inr (List.mem_cons_of_mem _ h2)

/-- Invariant tying the judgment table under construction to the state:
every allocated accumulator has a metrics record, and every stored entry
has a non-"0" value, a judged document, and allocated per-query records. -/
def GTInv (results : List (QDKey × String)) (st : EvalState) : Prop :=
  (∀ q, (findA st.query_level_base_metrics q).isSome →
    (findA st.query_level_metrics q).isSome)
  ∧ ∀ e ∈ results, e.2 ≠ "0" ∧ e.1.2 ∈ st.documents_with_ground_truth
      ∧ (findA st.query_level_base_metrics e.1.1).isSome
      ∧ (findA st.query_level_metrics e.1.1).isSome

theorem truthCols_cons_zero (index : List (ℕ × String)) (doc_id : String)
    (arr : List String) (i : ℕ) (rest : List ℕ) (results : List (QDKey × String))
    (st : EvalState) (hcell : arr.getD i "" = "0") :
    truthCols index doc_id arr (i :: rest) (results, st) =
      truthCols index doc_id arr rest (results, st) := by
  simp only [truthCols]
  rw [if_neg (not_not_intro hcell)]

theorem truthCols_cons_err (index : List (ℕ × String)) (doc_id : String)
    (arr : List String) (i : ℕ) (rest : List ℕ) (results : List (QDKey × String))
    (st : EvalState) (hcell : arr.getD i "" ≠ "0") (hidx : findA index i = none) :
    truthCols index doc_id arr (i :: rest) (results, st) = .error "KeyError: index" := by
  simp only [truthCols, hidx]
  rw [if_pos hcell]

theorem truthCols_cons_old (index : List (ℕ × String)) (doc_id : String)
    (arr : List String) (i : ℕ) (rest : List ℕ) (results : List (QDKey × String))
    (st : EvalState) (q0 : String) (hcell : arr.getD i "" ≠ "0")
    (hidx : findA index i = some q0)
    (halloc : (findA st.query_level_base_metrics q0).isSome) :
    truthCols index doc_id arr (i :: rest) (results, st) =
      truthCols index doc_id arr rest
        (insertA results (q0, doc_id) (arr.getD i ""),
         { st with documents_with_ground_truth :=
             setInsert st.documents_with_ground_truth doc_id }) := by
  simp only [truthCols, hidx]
  rw [if_pos hcell, if_pos halloc]

theorem truthCols_cons_new (index : List (ℕ × String)) (doc_id : String)
    (arr : List String) (i : ℕ) (rest : List ℕ) (results : List (QDKey × String))
    (st : EvalState) (q0 : String) (hcell : arr.getD i "" ≠ "0")
    (hidx : findA index i = some q0)
    (halloc : ¬ (findA st.query_level_base_metrics q0).isSome) :
    truthCols index doc_id arr (i :: rest) (results, st) =
      truthCols index doc_id arr rest
        (insertA results (q0, doc_id) (arr.getD i ""),
         { documents_with_ground_truth := setInsert st.documents_with_ground_truth doc_id
           query_level_base_metrics := insertA st.query_level_base_metrics q0 BaseMetrics.init
           query_level_metrics := insertA st.query_level_metrics q0 Metrics.init }) := by
  simp only [truthCols, hidx]
  rw [if_pos hcell, if_neg halloc]

/-- Full invariant lemma for the column loop of `populate_ground_truth`. -/
theorem truthCols_inv :
    ∀ (is : List ℕ) (index : List (ℕ × String)) (doc_id : String) (arr : List String)
      (results : List (QDKey × String)) (st : EvalState)
      (out : List (QDKey × String) × EvalState),
      truthCols index doc_id arr is (results, st) = .ok out →
      (GTInv results st → GTInv out.1 out.2)
      ∧ (∀ k, (findA results k).isSome → (findA out.1 k).isSome)
      ∧ (∀ d, d ∈ st.documents_with_ground_truth → d ∈ out.2.documents_with_ground_truth)
      ∧ (∀ q, (findA st.query_level_base_metrics q).isSome →
          (findA out.2.query_level_base_metrics q).isSome)
      ∧ (∀ q, (findA st.query_level_metrics q).isSome →
          (findA out.2.query_level_metrics q).isSome)
      ∧ (∀ q, (findA out.2.query_level_base_metrics q).isSome →
          (findA st.query_level_base_metrics q).isSome ∨ ∃ d, (findA out.1 (q, d)).isSome)
      ∧ (∀ q m, findA out.2.query_level_base_metrics q = some m →
          findA st.query_level_base_metrics q = some m ∨ m = BaseMetrics.init)
      ∧ (∀ q mm, findA out.2.query_level_metrics q = some mm →
          findA st.query_level_metrics q = some mm ∨ mm = Metrics.init)
      ∧ (∀ i ∈ is, arr.getD i "" ≠ "0" →
          ∃ q, findA index i = some q ∧ (findA out.1 (q, doc_id)).isSome) := by
  intro is
  induction is with
  | nil =>
      intro index doc_id arr results st out hrun
      have hout : (results, st) = out := Except.ok.inj hrun
      subst hout
      refine ⟨fun h => h, fun _ h => h, fun _ h => h, fun _ h => h, fun _ h => h,
        fun q h => Or.inl h, fun q m h => Or.inl h, fun q mm h => Or.inl h,
        fun i hi => absurd hi (List.not_mem_nil i)⟩
  | cons i rest ih =>
      intro index doc_id arr results st out hrun
      by_cases hcell : arr.getD i "" = "0"
      · rw [truthCols_cons_zero index doc_id arr i rest results st hcell] at hrun
        obtain ⟨ih1, ih2, ih3, ih4, ih5, ih6, ih7, ih8, ih9⟩ :=
          ih index doc_id arr results st out hrun
        refine ⟨ih1, ih2, ih3, ih4, ih5, ih6, ih7, ih8, ?_⟩
        intro j hj hjcell
        rcases List.mem_cons.1 hj with hj0 | hjr
        · subst hj0; exact absurd hcell hjcell
        · exact ih9 j hjr hjcell
      · cases hidx : findA index i with
        | none =>
            rw [truthCols_cons_err index doc_id arr i rest results st hcell hidx] at hrun
            exact Except.noConfusion hrun
        | some q0 =>
            by_cases halloc : (findA st.query_level_base_metrics q0).isSome
            · rw [truthCols_cons_old index doc_id arr i rest results st q0 hcell hidx
                halloc] at hrun
              obtain ⟨ih1, ih2, ih3, ih4, ih5, ih6, ih7, ih8, ih9⟩ :=
                ih index doc_id arr _ _ out hrun
              have hmem2 : (findA (insertA results (q0, doc_id) (arr.getD i "")) (q0, doc_id)).isSome := by
                rw [findA_insertA, if_pos rfl]; rfl
              refine ⟨?_, ?_, ?_, ih4, ih5, ih6, ih7, ih8, ?_⟩
              · intro hinv
                obtain ⟨hal, hent⟩ := hinv
                refine ih1 ⟨hal, ?_⟩
                intro e he
                rcases insertA_mem he with he0 | heo
                · subst he0
                  exact ⟨hcell, mem_setInsert_self _ _, halloc, hal q0 halloc⟩
                · obtain ⟨h1, h2, h3, h4⟩ := hent e heo
                  exact ⟨h1, mem_setInsert_of_mem _ h2, h3, h4⟩
              · intro k hk
                exact ih2 k (findA_isSome_insertA _ _ _ _ hk)
              · intro d hd
                exact ih3 d (mem_setInsert_of_mem _ hd)
              · intro j hj hjcell
                rcases List.mem_cons.1 hj with hj0 | hjr
                · subst hj0
                  exact ⟨q0, hidx, ih2 _ hmem2⟩
                · exact ih9 j hjr hjcell
            · rw [truthCols_cons_new index doc_id arr i rest results st q0 hcell hidx
                halloc] at hrun
              obtain ⟨ih1, ih2, ih3, ih4, ih5, ih6, ih7, ih8, ih9⟩ :=
                ih index doc_id arr _ _ out hrun
              have hmem2 : (findA (insertA results (q0, doc_id) (arr.getD i "")) (q0, doc_id)).isSome := by
                rw [findA_insertA, if_pos rfl]; rfl
              refine ⟨?_, ?_, ?_, ?_, ?_, ?_, ?_, ?_, ?_⟩
              · intro hinv
                obtain ⟨hal, hent⟩ := hinv
                refine ih1 ⟨?_, ?_⟩
                · intro q hq
                  show (findA (insertA st.query_level_metrics q0 Metrics.init) q).isSome
                  rw [findA_insertA]
                  by_cases hqq : q = q0
                  · rw [if_pos hqq]; rfl
                  · rw [if_neg hqq]
                    have hq' : (findA (insertA st.query_level_base_metrics q0
                        BaseMetrics.init) q).isSome := hq
                    rw [findA_insertA, if_neg hqq] at hq'
                    exact hal q hq'
                · intro e he
                  rcases insertA_mem he with he0 | heo
                  · subst he0
                    refine ⟨hcell, mem_setInsert_self _ _, ?_, ?_⟩
                    · show (findA (insertA st.query_level_base_metrics q0 BaseMetrics.init) q0).isSome
                      rw [findA_insertA, if_pos rfl]; rfl
                    · show (findA (insertA st.query_level_metrics q0 Metrics.init) q0).isSome
                      rw [findA_insertA, if_pos rfl]; rfl
                  · obtain ⟨h1, h2, h3, h4⟩ := hent e heo
                    refine ⟨h1, mem_setInsert_of_mem _ h2, ?_, ?_⟩
                    · exact findA_isSome_insertA _ _ _ _ h3
                    · exact findA_isSome_insertA _ _ _ _ h4
              · intro k hk
                exact ih2 k (findA_isSome_insertA _ _ _ _ hk)
              · intro d hd
                exact ih3 d (mem_setInsert_of_mem _ hd)
              · intro q hq
                exact ih4 q (findA_isSome_insertA _ _ _ _ hq)
              · intro q hq
                exact ih5 q (findA_isSome_insertA _ _ _ _ hq)
              · intro q hq
                rcases ih6 q hq with h6 | h6
                · have h6' : (findA (insertA st.query_level_base_metrics q0
                      BaseMetrics.init) q).isSome := h6
                  rw [findA_insertA] at h6'
                  by_cases hqq : q = q0
                  · subst hqq
                    exact Or.inr ⟨doc_id, ih2 _ hmem2⟩
                  · rw [if_neg hqq] at h6'
                    exact Or.inl h6'
                · exact Or.inr h6
              · intro q m hq
                rcases ih7 q m hq with h7 | h7
                · have h7' : findA (insertA st.query_level_base_metrics q0
                      BaseMetrics.init) q = some m := h7
                  rw [findA_insertA] at h7'
                  by_cases hqq : q = q0
                  · rw [if_pos hqq] at h7'
                    exact Or.inr (Option.some.inj h7').symm
                  · rw [if_neg hqq] at h7'
                    exact Or.inl h7'
                · exact Or.inr h7
              · intro q mm hq
                rcases ih8 q mm hq with h8 | h8
                · have h8' : findA (insertA st.query_level_metrics q0
                      Metrics.init) q = some mm := h8
                  rw [findA_insertA] at h8'
                  by_cases hqq : q = q0
                  · rw [if_pos hqq] at h8'
                    exact Or.inr (Option.some.inj h8').symm
                  · rw [if_neg hqq] at h8'
                    exact Or.inl h8'
                · exact Or.inr h8
              · intro j hj hjcell
                rcases List.mem_cons.1 hj with hj0 | hjr
                · subst hj0
                  exact ⟨q0, hidx, ih2 _ hmem2⟩
                · exact ih9 j hjr hjcell

/-- Full invariant lemma for the row loop of `populate_ground_truth`. -/
theorem truthRows_inv :
    ∀ (rows : List String) (index : List (ℕ × String))
      (results : List (QDKey × String)) (st : EvalState)
      (out : List (QDKey × String) × EvalState),
      truthRows index rows (results, st) = .ok out →
      (GTInv results st → GTInv out.1 out.2)
      ∧ (∀ k, (findA results k).isSome → (findA out.1 k).isSome)
      ∧ (∀ q, (findA out.2.query_level_base_metrics q).isSome →
          (findA st.query_level_base_metrics q).isSome ∨ ∃ d, (findA out.1 (q, d)).isSome)
      ∧ (∀ q m, findA out.2.query_level_base_metrics q = some m →
          findA st.query_level_base_metrics q = some m ∨ m = BaseMetrics.init)
      ∧ (∀ q mm, findA out.2.query_level_metrics q = some mm →
          findA st.query_level_metrics q = some mm ∨ mm = Metrics.init)
      ∧ (∀ row ∈ rows, ∀ i ∈ List.range' 1 ((parseLine row).length - 1),
          (parseLine row).getD i "" ≠ "0" →
          ∃ q, findA index i = some q ∧
            (findA out.1 (q, (parseLine row).getD 0 "")).isSome) := by
  intro rows
  induction rows with
  | nil =>
      intro index results st out hrun
      have hout : (results, st) = out := Except.ok.inj hrun
      subst hout
      exact ⟨fun h => h, fun _ h => h, fun q h => Or.inl h, fun q m h => Or.inl h,
        fun q mm h => Or.inl h, fun row hrow => absurd hrow (List.not_mem_nil row)⟩
  | cons row rest ih =>
      intro index results st out hrun
      simp only [truthRows] at hrun
      obtain ⟨acc1, hcols, hrest⟩ := except_bind_eq_ok hrun
      obtain ⟨res1, st1⟩ := acc1
      obtain ⟨tc1, tc2, tc3, tc4, tc5, tc6, tc7, tc8, tc9⟩ :=
        truthCols_inv (List.range' 1 ((parseLine row).length - 1)) index
          ((parseLine row).getD 0 "") (parseLine row) results st (res1, st1) hcols
      obtain ⟨ih1, ih2, ih6, ih7, ih8, ih9⟩ := ih index res1 st1 out hrest
      refine ⟨fun h => ih1 (tc1 h), fun k hk => ih2 k (tc2 k hk), ?_, ?_, ?_, ?_⟩
      · intro q hq
        rcases ih6 q hq with h | h
        · rcases tc6 q h with h' | h'
          · exact Or.inl h'
          · obtain ⟨d, hd⟩ := h'
            exact Or.inr ⟨d, ih2 _ hd⟩
        · exact Or.inr h
      · intro q m hq
        rcases ih7 q m hq with h | h
        · exact tc7 q m h
        · exact Or.inr h
      · intro q mm hq
        rcases ih8 q mm hq with h | h
        · exact tc8 q mm h
        · exact Or.inr h
      · intro r hr i hi hicell
        rcases List.mem_cons.1 hr with hr0 | hrr
        · subst hr0
          obtain ⟨q, hq, hentry⟩ := tc9 i hi hicell
          exact ⟨q, hq, ih2 _ hentry⟩
        · exact ih9 r hrr i hi hicell

/-- The judged `(key, cell value)` occurrences a column loop emits for one
row: one per non-"0" cell whose position the column index maps, in column
order. -/
def colCells (index : List (ℕ × String)) (doc_id : String) (arr : List String)
    (is : List ℕ) : List (QDKey × String) :=
  is.filterMap (fun i =>
    if arr.getD i "" ≠ "0" then
      match findA index i with
      | some query_id => some ((query_id, doc_id), arr.getD i "")
      | none => none
    else none)

/-- The judged cell occurrences of one data row. -/
def rowCells (index : List (ℕ × String)) (row : String) : List (QDKey × String) :=
  colCells index ((parseLine row).getD 0 "") (parseLine row)
    (List.range' 1 ((parseLine row).length - 1))

/-- The judged cell occurrences of the whole file body, in file order. -/
def fileCells (index : List (ℕ × String)) : List String → List (QDKey × String)
  | [] => []
  | row :: rest => rowCells index row ++ fileCells index rest

theorem findA_foldl_insert_not_mem :
    ∀ (cells : List (QDKey × String)) (m : List (QDKey × String)) (k : QDKey),
      k ∉ cells.map Prod.fst →
      findA (cells.foldl (fun r kv => insertA r kv.1 kv.2) m) k = findA m k := by
  intro cells
  induction cells with
  | nil => intro m k _; rfl
  | cons c rest ih =>
      intro m k hk
      have hk1 : ¬ k = c.1 := by
        intro h
        exact hk (by rw [List.map_cons, h]; exact List.mem_cons_self _ _)
      have hkr : k ∉ rest.map Prod.fst := by
        intro h
        exact hk (by rw [List.map_cons]; exact List.mem_cons_of_mem _ h)
      rw [List.foldl_cons, ih (insertA m c.1 c.2) k hkr, findA_insertA, if_neg hk1]

theorem findA_foldl_insertA_nodup :
    ∀ (cells : List (QDKey × String)) (m : List (QDKey × String)) (k : QDKey) (v : String),
      (cells.map Prod.fst).Nodup → (k, v) ∈ cells →
      findA (cells.foldl (fun r kv => insertA r kv.1 kv.2) m) k = some v := by
  intro cells
  induction cells with
  | nil => intro m k v _ h; exact absurd h (List.not_mem_nil _)
  | cons c rest ih =>
      intro m k v hnd hmem
      rw [List.map_cons] at hnd
      have hpair := List.nodup_cons.1 hnd
      rw [List.foldl_cons]
      rcases List.mem_cons.1 hmem with h | h
      · have hc : c = (k, v) := h.symm
        subst hc
        rw [findA_foldl_insert_not_mem rest _ k hpair.1, findA_insertA, if_pos rfl]
      · exact ih (insertA m c.1 c.2) k v hpair.2 h

/-- On a successful run, the column loop appends exactly its judged cells
to the judgment table under construction (Python dict-assignment
semantics). -/
theorem truthCols_results :
    ∀ (is : List ℕ) (index : List (ℕ × String)) (doc_id : String) (arr : List String)
      (results : List (QDKey × String)) (st : EvalState)
      (out : List (QDKey × String) × EvalState),
      truthCols index doc_id arr is (results, st) = .ok out →
      out.1 = (colCells index doc_id arr is).foldl
        (fun r kv => insertA r kv.1 kv.2) results := by
  intro is
  induction is with
  | nil =>
      intro index doc_id arr results st out hrun
      have h : (results, st) = out := Except.ok.inj hrun
      subst h
      rfl
  | cons i rest ih =>
      intro index doc_id arr results st out hrun
      by_cases hcell : arr.getD i "" = "0"
      · rw [truthCols_cons_zero index doc_id arr i rest results st hcell] at hrun
        have hcol : colCells index doc_id arr (i :: rest) = colCells index doc_id arr rest := by
          simp only [colCells, List.filterMap_cons]
          rw [if_neg (not_not_intro hcell)]
        rw [hcol]
        exact ih index doc_id arr results st out hrun
      · cases hidx : findA index i with
        | none =>
            rw [truthCols_cons_err index doc_id arr i rest results st hcell hidx] at hrun
            exact Except.noConfusion hrun
        | some q0 =>
            have hcol : colCells index doc_id arr (i :: rest) =
                ((q0, doc_id), arr.getD i "") :: colCells index doc_id arr rest := by
              simp only [colCells, List.filterMap_cons]
              rw [if_pos hcell, hidx]
            rw [hcol, List.foldl_cons]
            by_cases halloc : (findA st.query_level_base_metrics q0).isSome
            · rw [truthCols_cons_old index doc_id arr i rest results st q0 hcell hidx
                halloc] at hrun
              exact ih index doc_id arr _ _ out hrun
            · rw [truthCols_cons_new index doc_id arr i rest results st q0 hcell hidx
                halloc] at hrun
              exact ih index doc_id arr _ _ out hrun

/-- On a successful run, the returned judgment table is the fold of Python
dict assignments over the file's judged cells in file order. -/
theorem truthRows_results :
    ∀ (rows : List String) (index : List (ℕ × String))
      (results : List (QDKey × String)) (st : EvalState)
      (out : List (QDKey × String) × EvalState),
      truthRows index rows (results, st) = .ok out →
      out.1 = (fileCells index rows).foldl (fun r kv => insertA r kv.1 kv.2) results := by
  intro rows
  induction rows with
  | nil =>
      intro index results st out hrun
      have h : (results, st) = out := Except.ok.inj hrun
      subst h
      rfl
  | cons row rest ih =>
      intro index results st out hrun
      simp only [truthRows] at hrun
      obtain ⟨acc1, hcols, hrest⟩ := except_bind_eq_ok hrun
      obtain ⟨res1, st1⟩ := acc1
      have h1 : res1 = (colCells index ((parseLine row).getD 0 "") (parseLine row)
          (List.range' 1 ((parseLine row).length - 1))).foldl
            (fun r kv => insertA r kv.1 kv.2) results :=
        truthCols_results (List.range' 1 ((parseLine row).length - 1)) index
          ((parseLine row).getD 0 "") (parseLine row) results st (res1, st1) hcols
      have h2 := ih index res1 st1 out hrest
      rw [h2, h1]
      simp only [fileCells]
      rw [List.foldl_append]
      rfl

theorem mem_colCells {index : List (ℕ × String)} {doc_id : String} {arr : List String}
    {is : List ℕ} {i : ℕ} {q : String}
    (hi : i ∈ is) (hcell : arr.getD i "" ≠ "0") (hq : findA index i = some q) :
    ((q, doc_id), arr.getD i "") ∈ colCells index doc_id arr is := by
  unfold colCells
  refine List.mem_filterMap.2 ⟨i, hi, ?_⟩
  rw [if_pos hcell, hq]

theorem mem_fileCells :
    ∀ (rows : List String) (index : List (ℕ × String)) (row : String)
      (x : QDKey × String),
      row ∈ rows → x ∈ rowCells index row → x ∈ fileCells index rows := by
  intro rows
  induction rows with
  | nil => intro index row x hrow _; exact absurd hrow (List.not_mem_nil _)
  | cons r rest ih =>
      intro index row x hrow hx
      rcases List.mem_cons.1 hrow with h | h
      · subst h
        exact List.mem_append_left _ hx
      · exact List.mem_append_right _ (ih index row x h hx)

/-- **C6.** On any successful run of `populate_ground_truth` from the
cleared state: every judgment-table entry has a non-"0" value, its
document is in the judged-document set and its query has both an
accumulator and a metrics record; every query with an accumulator has at
least one judgment-table entry (so a query with no non-"0" cell never
gains an accumulator and stays out of the macro-average denominator); all
allocated accumulators and metrics records are zeroed; conversely, every
non-"0" cell of every data row yields a judgment-table entry for the
column's query and the row's document; and — when no two judged cells of
the file share a `(query, doc)` key (duplicate keys would be overwritten
by the later dict assignment) — the value stored for that key is exactly
the cell value. -/
theorem C6_populate_ground_truth_spec (header : String) (rows : List String)
    (truth : List (QDKey × String)) (st' : EvalState)
    (hrun : populate_ground_truth (header :: rows) EvalState.init = .ok (truth, st')) :
    (∀ e ∈ truth, e.2 ≠ "0" ∧ e.1.2 ∈ st'.documents_with_ground_truth
      ∧ (findA st'.query_level_base_metrics e.1.1).isSome
      ∧ (findA st'.query_level_metrics e.1.1).isSome)
    ∧ (∀ q, (findA st'.query_level_base_metrics q).isSome →
        ∃ d, (findA truth (q, d)).isSome)
    ∧ (∀ q m, findA st'.query_level_base_metrics q = some m → m = BaseMetrics.init)
    ∧ (∀ q mm, findA st'.query_level_metrics q = some mm → mm = Metrics.init)
    ∧ (∀ row ∈ rows, ∀ i, 1 ≤ i → i < (parseLine row).length →
        (parseLine row).getD i "" ≠ "0" →
        ∃ q, findA (populate_index_map (header :: rows)) i = some q ∧
          (findA truth (q, (parseLine row).getD 0 "")).isSome)
    ∧ (((fileCells (populate_index_map (header :: rows)) rows).map Prod.fst).Nodup →
        ∀ row ∈ rows, ∀ i, 1 ≤ i → i < (parseLine row).length →
        (parseLine row).getD i "" ≠ "0" →
        ∃ q, findA (populate_index_map (header :: rows)) i = some q ∧
          findA truth (q, (parseLine row).getD 0 "") =
            some ((parseLine row).getD i "")) := by
  have hrun' : truthRows (populate_index_map (header :: rows)) rows ([], EvalState.init)
      = .ok (truth, st') := hrun
  obtain ⟨h1, h2, h6, h7, h8, h9⟩ :=
    truthRows_inv rows (populate_index_map (header :: rows)) [] EvalState.init
      (truth, st') hrun'
  have hinv0 : GTInv [] EvalState.init := by
    constructor
    · intro q hq
      simp [findA, EvalState.init] at hq
    · intro e he
      exact absurd he (List.not_mem_nil e)
  have hinv := h1 hinv0
  refine ⟨hinv.2, ?_, ?_, ?_, ?_, ?_⟩
  · intro q hq
    rcases h6 q hq with h | h
    · simp [findA, EvalState.init] at h
    · exact h
  · intro q m hq
    rcases h7 q m hq with h | h
    · simp [findA, EvalState.init] at h
    · exact h
  · intro q mm hq
    rcases h8 q mm hq with h | h
    · simp [findA, EvalState.init] at h
    · exact h
  · intro row hrow i h1i h2i hicell
    have hi : i ∈ List.range' 1 ((parseLine row).length - 1) := by
      have : 1 ≤ i ∧ i < 1 + ((parseLine row).length - 1) := by omega
      simpa [List.mem_range'_1] using this
    exact h9 row hrow i hi hicell
  · intro hnd row hrow i h1i h2i hicell
    have hi : i ∈ List.range' 1 ((parseLine row).length - 1) := by
      have : 1 ≤ i ∧ i < 1 + ((parseLine row).length - 1) := by omega
      simpa [List.mem_range'_1] using this
    obtain ⟨q, hq, _⟩ := h9 row hrow i hi hicell
    refine ⟨q, hq, ?_⟩
    have hres : truth = (fileCells (populate_index_map (header :: rows)) rows).foldl
        (fun r kv => insertA r kv.1 kv.2) [] :=
      truthRows_results rows (populate_index_map (header :: rows)) [] EvalState.init
        (truth, st') hrun'
    rw [hres]
    exact findA_foldl_insertA_nodup _ [] (q, (parseLine row).getD 0 "")
      ((parseLine row).getD i "") hnd
      (mem_fileCells rows _ row _ hrow (mem_colCells hi hicell hq))

/-- Witness for C6 on a two-row, two-query truth file. -/
theorem C6_populate_ground_truth_spec_witness :
    populate_ground_truth ["doc\tQ1\tQ2\n", "D1\t1\t0\n", "D2\t0\t-1\n"] EvalState.init =
      .ok ([((("Q1" : String), ("D1" : String)), "1"), ((("Q2" : String), ("D2" : String)), "-1")],
        (⟨[("Q1", BaseMetrics.init), ("Q2", BaseMetrics.init)],
          [("Q1", Metrics.init), ("Q2", Metrics.init)], ["D1", "D2"]⟩ : EvalState))
    ∧ ((∀ e ∈ [((("Q1" : String), ("D1" : String)), "1"),
          ((("Q2" : String), ("D2" : String)), "-1")],
        e.2 ≠ "0" ∧ e.1.2 ∈ (⟨[("Q1", BaseMetrics.init), ("Q2", BaseMetrics.init)],
            [("Q1", Metrics.init), ("Q2", Metrics.init)],
            ["D1", "D2"]⟩ : EvalState).documents_with_ground_truth
          ∧ (findA (⟨[("Q1", BaseMetrics.init), ("Q2", BaseMetrics.init)],
              [("Q1", Metrics.init), ("Q2", Metrics.init)],
              ["D1", "D2"]⟩ : EvalState).query_level_base_metrics e.1.1).isSome
          ∧ (findA (⟨[("Q1", BaseMetrics.init), ("Q2", BaseMetrics.init)],
              [("Q1", Metrics.init), ("Q2", Metrics.init)],
              ["D1", "D2"]⟩ : EvalState).query_level_metrics e.1.1).isSome)
      ∧ (∀ q, (findA (⟨[("Q1", BaseMetrics.init), ("Q2", BaseMetrics.init)],
            [("Q1", Metrics.init), ("Q2", Metrics.init)],
            ["D1", "D2"]⟩ : EvalState).query_level_base_metrics q).isSome →
          ∃ d, (findA [((("Q1" : String), ("D1" : String)), "1"),
            ((("Q2" : String), ("D2" : String)), "-1")] (q, d)).isSome)
      ∧ (∀ q m, findA (⟨[("Q1", BaseMetrics.init), ("Q2", BaseMetrics.init)],
            [("Q1", Metrics.init), ("Q2", Metrics.init)],
            ["D1", "D2"]⟩ : EvalState).query_level_base_metrics q = some m →
          m = BaseMetrics.init)
      ∧ (∀ q mm, findA (⟨[("Q1", BaseMetrics.init), ("Q2", BaseMetrics.init)],
            [("Q1", Metrics.init), ("Q2", Metrics.init)],
            ["D1", "D2"]⟩ : EvalState).query_level_metrics q = some mm →
          mm = Metrics.init)
      ∧ (∀ row ∈ ["D1\t1\t0\n", "D2\t0\t-1\n"], ∀ i, 1 ≤ i → i < (parseLine row).length →
          (parseLine row).getD i "" ≠ "0" →
          ∃ q, findA (populate_index_map ["doc\tQ1\tQ2\n", "D1\t1\t0\n", "D2\t0\t-1\n"]) i
              = some q ∧
            (findA [((("Q1" : String), ("D1" : String)), "1"),
              ((("Q2" : String), ("D2" : String)), "-1")]
              (q, (parseLine row).getD 0 "")).isSome)
      ∧ (((fileCells (populate_index_map ["doc\tQ1\tQ2\n", "D1\t1\t0\n", "D2\t0\t-1\n"])
            ["D1\t1\t0\n", "D2\t0\t-1\n"]).map Prod.fst).Nodup →
          ∀ row ∈ ["D1\t1\t0\n", "D2\t0\t-1\n"], ∀ i, 1 ≤ i → i < (parseLine row).length →
          (parseLine row).getD i "" ≠ "0" →
          ∃ q, findA (populate_index_map ["doc\tQ1\tQ2\n", "D1\t1\t0\n", "D2\t0\t-1\n"]) i
              = some q ∧
            findA [((("Q1" : String), ("D1" : String)), "1"),
                ((("Q2" : String), ("D2" : String)), "-1")]
                (q, (parseLine row).getD 0 "") =
              some ((parseLine row).getD i ""))) :=
  ⟨by decide, C6_populate_ground_truth_spec "doc\tQ1\tQ2\n" ["D1\t1\t0\n", "D2\t0\t-1\n"]
    _ _ (by decide)⟩

/-! ## C9: column count vs. header, and totality of the scorer -/

theorem splitChar_ne_nil (sep : Char) (l : List Char) : splitChar sep l ≠ [] := by
  cases l with
  | nil => simp [splitChar]
  | cons c rest =>
      simp only [splitChar]
      by_cases h : c = sep
      · rw [if_pos h]; simp
      · rw [if_neg h]
        cases hr : splitChar sep rest with
        | nil => simp
        | cons w ws => simp

theorem parseLine_length_pos (s : String) : 1 ≤ (parseLine s).length := by
  unfold parseLine
  rw [List.length_map]
  cases hl : splitChar '\t' (pyStrip s).data with
  | nil => exact absurd hl (splitChar_ne_nil _ _)
  | cons w ws => simp

theorem qlbmUpdate_ok {st : EvalState} {q : String} (f : BaseMetrics → BaseMetrics)
    (h : (findA st.query_level_base_metrics q).isSome) :
    ∃ st', qlbmUpdate st q f = .ok st'
      ∧ (∀ x, (findA st'.query_level_base_metrics x).isSome =
          (findA st.query_level_base_metrics x).isSome)
      ∧ st'.documents_with_ground_truth = st.documents_with_ground_truth := by
  cases hm : findA st.query_level_base_metrics q with
  | none => rw [hm] at h; exact absurd h (by simp)
  | some m =>
      refine ⟨{ st with query_level_base_metrics := insertA st.query_level_base_metrics q (f m) }, ?_, ?_, rfl⟩
      · unfold qlbmUpdate
        rw [hm]
      · intro x
        show (findA (insertA st.query_level_base_metrics q (f m)) x).isSome = _
        rw [findA_insertA]
        by_cases hx : x = q
        · rw [if_pos hx, hx, hm]; rfl
        · rw [if_neg hx]

/-- One in-index column step of the prediction scan: under truth-coverage
of the accumulators it cannot fail, and it preserves coverage and the
judged-document set. -/
theorem predCols_step (index : List (ℕ × String)) (truth : List (QDKey × String))
    (doc_id : String) (arr : List String) (i : ℕ) (rest : List ℕ)
    (g : BaseMetrics) (st : EvalState) (seen : List QDKey)
    (hcov : ∀ p ∈ truth, (findA st.query_level_base_metrics p.1.1).isSome)
    (hi : (findA index i).isSome) :
    ∃ g' st' seen', predCols index truth doc_id arr (i :: rest) (g, st, seen) =
        predCols index truth doc_id arr rest (g', st', seen')
      ∧ (∀ p ∈ truth, (findA st'.query_level_base_metrics p.1.1).isSome)
      ∧ st'.documents_with_ground_truth = st.documents_with_ground_truth := by
  obtain ⟨qid, hqid⟩ := Option.isSome_iff_exists.1 hi
  cases htv : findA truth (qid, doc_id) with
  | none =>
      exact ⟨g, st, seen, by simp only [predCols, hqid, htv], hcov, rfl⟩
  | some tv =>
      by_cases hseen : (qid, doc_id) ∈ seen
      · refine ⟨g, st, seen, ?_, hcov, rfl⟩
        simp only [predCols, hqid, htv]
        rw [if_pos hseen]
      · have hq : (findA st.query_level_base_metrics qid).isSome :=
          hcov ((qid, doc_id), tv) (findA_mem htv)
        by_cases hc1 : tv = arr.getD i ""
        · by_cases hc2 : arr.getD i "" = "1"
          · obtain ⟨st1, hupd, hpres, hdocs⟩ := qlbmUpdate_ok (fun m => m.add_tp 1) hq
            refine ⟨g.add_tp 1, st1, setInsert seen (qid, doc_id), ?_, ?_, hdocs⟩
            · simp only [predCols, hqid, htv]
              rw [if_neg hseen, if_pos hc1, if_pos hc2, hupd]
              rfl
            · intro p hp; rw [hpres]; exact hcov p hp
          · obtain ⟨st1, hupd, hpres, hdocs⟩ := qlbmUpdate_ok (fun m => m.add_tn 1) hq
            refine ⟨g.add_tn 1, st1, setInsert seen (qid, doc_id), ?_, ?_, hdocs⟩
            · simp only [predCols, hqid, htv]
              rw [if_neg hseen, if_pos hc1, if_neg hc2, hupd]
              rfl
            · intro p hp; rw [hpres]; exact hcov p hp
        · by_cases hc2 : tv = "1"
          · obtain ⟨st1, hupd, hpres, hdocs⟩ := qlbmUpdate_ok (fun m => m.add_fn 1) hq
            refine ⟨g.add_fn 1, st1, setInsert seen (qid, doc_id), ?_, ?_, hdocs⟩
            · simp only [predCols, hqid, htv]
              rw [if_neg hseen, if_neg hc1, if_pos hc2, hupd]
              rfl
            · intro p hp; rw [hpres]; exact hcov p hp
          · obtain ⟨st1, hupd, hpres, hdocs⟩ := qlbmUpdate_ok (fun m => m.add_fp 1) hq
            refine ⟨g.add_fp 1, st1, setInsert seen (qid, doc_id), ?_, ?_, hdocs⟩
            · simp only [predCols, hqid, htv]
              rw [if_neg hseen, if_neg hc1, if_neg hc2, hupd]
              rfl
            · intro p hp; rw [hpres]; exact hcov p hp

theorem predCols_ok :
    ∀ (is : List ℕ) (index : List (ℕ × String)) (truth : List (QDKey × String))
      (doc_id : String) (arr : List String) (g : BaseMetrics) (st : EvalState)
      (seen : List QDKey),
      (∀ p ∈ truth, (findA st.query_level_base_metrics p.1.1).isSome) →
      (∀ i ∈ is, (findA index i).isSome) →
      ∃ out, predCols index truth doc_id arr is (g, st, seen) = .ok out
        ∧ (∀ p ∈ truth, (findA out.2.1.query_level_base_metrics p.1.1).isSome)
        ∧ out.2.1.documents_with_ground_truth = st.documents_with_ground_truth := by
  intro is
  induction is with
  | nil =>
      intro index truth doc_id arr g st seen hcov _
      exact ⟨(g, st, seen), rfl, hcov, rfl⟩
  | cons i rest ih =>
      intro index truth doc_id arr g st seen hcov his
      obtain ⟨g', st', seen', heq, hcov', hdocs'⟩ :=
        predCols_step index truth doc_id arr i rest g st seen hcov (his i (by simp))
      obtain ⟨out, hout, hcovo, hdocso⟩ :=
        ih index truth doc_id arr g' st' seen' hcov'
          (fun j hj => his j (List.mem_cons_of_mem _ hj))
      exact ⟨out, heq.trans hout, hcovo, hdocso.trans hdocs'⟩

theorem predCols_err :
    ∀ (is₁ : List ℕ) (i₀ : ℕ) (is₂ : List ℕ) (index : List (ℕ × String))
      (truth : List (QDKey × String)) (doc_id : String) (arr : List String)
      (g : BaseMetrics) (st : EvalState) (seen : List QDKey),
      (∀ p ∈ truth, (findA st.query_level_base_metrics p.1.1).isSome) →
      (∀ i ∈ is₁, (findA index i).isSome) →
      findA index i₀ = none →
      predCols index truth doc_id arr (is₁ ++ i₀ :: is₂) (g, st, seen) =
        .error "KeyError: index" := by
  intro is₁
  induction is₁ with
  | nil =>
      intro i₀ is₂ index truth doc_id arr g st seen _ _ hidx0
      simp only [List.nil_append, predCols, hidx0]
  | cons i rest ih =>
      intro i₀ is₂ index truth doc_id arr g st seen hcov his hidx0
      rw [List.cons_append]
      obtain ⟨g', st', seen', heq, hcov', _⟩ :=
        predCols_step index truth doc_id arr i (rest ++ i₀ :: is₂) g st seen hcov
          (his i (by simp))
      rw [heq]
      exact ih i₀ is₂ index truth doc_id arr g' st' seen' hcov'
        (fun j hj => his j (List.mem_cons_of_mem _ hj)) hidx0

theorem predRows_ok :
    ∀ (rows : List String) (H : ℕ) (index : List (ℕ × String))
      (truth : List (QDKey × String)) (g : BaseMetrics) (st : EvalState)
      (seen : List QDKey),
      (∀ i, (findA index i).isSome ↔ (1 ≤ i ∧ i < H)) →
      (∀ p ∈ truth, (findA st.query_level_base_metrics p.1.1).isSome) →
      (∀ row ∈ rows, (parseLine row).getD 0 "" ∈ st.documents_with_ground_truth →
        (parseLine row).length ≤ H) →
      ∃ out, predRows index truth rows (g, st, seen) = .ok out
        ∧ (∀ p ∈ truth, (findA out.2.1.query_level_base_metrics p.1.1).isSome) := by
  intro rows
  induction rows with
  | nil =>
      intro H index truth g st seen _ hcov _
      exact ⟨(g, st, seen), rfl, hcov⟩
  | cons row rest ih =>
      intro H index truth g st seen hidx hcov hrows
      by_cases hdoc : (parseLine row).getD 0 "" ∈ st.documents_with_ground_truth
      · have hlen : (parseLine row).length ≤ H := hrows row (by simp) hdoc
        have hall : ∀ i ∈ List.range' 1 ((parseLine row).length - 1),
            (findA index i).isSome := by
          intro i hi
          rw [List.mem_range'_1] at hi
          exact (hidx i).2 ⟨hi.1, by omega⟩
        obtain ⟨out1, hout1, hcov1, hdocs1⟩ :=
          predCols_ok (List.range' 1 ((parseLine row).length - 1)) index truth
            ((parseLine row).getD 0 "") (parseLine row) g st seen hcov hall
        obtain ⟨g1, st1, seen1⟩ := out1
        obtain ⟨out, hout, hcovo⟩ := ih H index truth g1 st1 seen1 hidx hcov1
          (by
            intro r hr hmem
            refine hrows r (List.mem_cons_of_mem _ hr) ?_
            rwa [hdocs1] at hmem)
        refine ⟨out, ?_, hcovo⟩
        simp only [predRows]
        rw [if_pos hdoc, hout1]
        exact hout
      · obtain ⟨out, hout, hcovo⟩ := ih H index truth g st seen hidx hcov
          (fun r hr hmem => hrows r (List.mem_cons_of_mem _ hr) hmem)
        refine ⟨out, ?_, hcovo⟩
        simp only [predRows]
        rw [if_neg hdoc]
        exact hout

theorem predRows_err :
    ∀ (rows : List String) (H : ℕ) (index : List (ℕ × String))
      (truth : List (QDKey × String)) (g : BaseMetrics) (st : EvalState)
      (seen : List QDKey),
      1 ≤ H →
      (∀ i, (findA index i).isSome ↔ (1 ≤ i ∧ i < H)) →
      (∀ p ∈ truth, (findA st.query_level_base_metrics p.1.1).isSome) →
      (∃ row ∈ rows, (parseLine row).getD 0 "" ∈ st.documents_with_ground_truth
        ∧ H < (parseLine row).length) →
      predRows index truth rows (g, st, seen) = .error "KeyError: index" := by
  intro rows
  induction rows with
  | nil =>
      intro H index truth g st seen _ _ _ hbad
      obtain ⟨row, hrow, _⟩ := hbad
      exact absurd hrow (List.not_mem_nil row)
  | cons row rest ih =>
      intro H index truth g st seen hH hidx hcov hbad
      by_cases hdoc : (parseLine row).getD 0 "" ∈ st.documents_with_ground_truth
      · by_cases hlen : H < (parseLine row).length
        · have hsplit : List.range' 1 ((parseLine row).length - 1) =
              List.range' 1 (H - 1) ++ H :: List.range' (H + 1) ((parseLine row).length - 1 - H) := by
            have h1 : List.range' 1 (H - 1) ++ List.range' H ((parseLine row).length - H) =
                List.range' 1 (((parseLine row).length - H) + (H - 1)) := by
              have := List.range'_append_1 1 (H - 1) ((parseLine row).length - H)
              rw [show 1 + (H - 1) = H by omega] at this
              exact this
            have h2 : List.range' H ((parseLine row).length - H) =
                H :: List.range' (H + 1) ((parseLine row).length - H - 1) := by
              rw [show (parseLine row).length - H = ((parseLine row).length - H - 1) + 1 by omega]
              rw [List.range'_succ, Nat.add_sub_cancel]
            rw [show (parseLine row).length - 1 - H = (parseLine row).length - H - 1 by omega]
            rw [← h2, h1]
            rw [show ((parseLine row).length - H) + (H - 1) = (parseLine row).length - 1 by omega]
          have herr : predCols index truth ((parseLine row).getD 0 "") (parseLine row)
              (List.range' 1 ((parseLine row).length - 1)) (g, st, seen) =
              .error "KeyError: index" := by
            rw [hsplit]
            refine predCols_err (List.range' 1 (H - 1)) H
              (List.range' (H + 1) ((parseLine row).length - 1 - H)) index truth _ _
              g st seen hcov ?_ ?_
            · intro i hi
              rw [List.mem_range'_1] at hi
              exact (hidx i).2 ⟨hi.1, by omega⟩
            · have : ¬ (1 ≤ H ∧ H < H) := by omega
              cases hfH : findA index H with
              | none => rfl
              | some q =>
                  exact absurd ((hidx H).1 (by rw [hfH]; rfl)) this
          simp only [predRows]
          rw [if_pos hdoc, herr]
          rfl
        · have hle : (parseLine row).length ≤ H := by omega
          have hall : ∀ i ∈ List.range' 1 ((parseLine row).length - 1),
              (findA index i).isSome := by
            intro i hi
            rw [List.mem_range'_1] at hi
            exact (hidx i).2 ⟨hi.1, by omega⟩
          obtain ⟨out1, hout1, hcov1, hdocs1⟩ :=
            predCols_ok (List.range' 1 ((parseLine row).length - 1)) index truth
              ((parseLine row).getD 0 "") (parseLine row) g st seen hcov hall
          obtain ⟨g1, st1, seen1⟩ := out1
          have hbad' : ∃ r ∈ rest, (parseLine r).getD 0 "" ∈
              st1.documents_with_ground_truth ∧ H < (parseLine r).length := by
            obtain ⟨r, hr, hrdoc, hrlen⟩ := hbad
            rcases List.mem_cons.1 hr with hr0 | hrr
            · subst hr0; exact absurd hrlen hlen
            · exact ⟨r, hrr, by rwa [hdocs1], hrlen⟩
          have := ih H index truth g1 st1 seen1 hH hidx hcov1 hbad'
          simp only [predRows]
          rw [if_pos hdoc, hout1]
          exact this
      · have hbad' : ∃ r ∈ rest, (parseLine r).getD 0 "" ∈
            st.documents_with_ground_truth ∧ H < (parseLine r).length := by
          obtain ⟨r, hr, hrdoc, hrlen⟩ := hbad
          rcases List.mem_cons.1 hr with hr0 | hrr
          · subst hr0; exact absurd hrdoc hdoc
          · exact ⟨r, hrr, hrdoc, hrlen⟩
        have := ih H index truth g st seen hH hidx hcov hbad'
        simp only [predRows]
        rw [if_neg hdoc]
        exact this

theorem penalizeLoop_ok :
    ∀ (entries : List (QDKey × String)) (seen : List QDKey) (g : BaseMetrics)
      (st : EvalState),
      (∀ p ∈ entries, (findA st.query_level_base_metrics p.1.1).isSome) →
      ∃ out, penalizeLoop seen entries (g, st) = .ok out := by
  intro entries
  induction entries with
  | nil => intro seen g st _; exact ⟨(g, st), rfl⟩
  | cons e rest ih =>
      intro seen g st hcov
      obtain ⟨k, v⟩ := e
      by_cases hk : k ∈ seen
      · obtain ⟨out, hout⟩ := ih seen g st (fun p hp => hcov p (List.mem_cons_of_mem _ hp))
        refine ⟨out, ?_⟩
        simp only [penalizeLoop]
        rw [if_pos hk]
        exact hout
      · have hq : (findA st.query_level_base_metrics k.1).isSome := hcov (k, v) (by simp)
        by_cases hv : v = "1"
        · obtain ⟨st1, hupd, hpres, _⟩ := qlbmUpdate_ok (fun m => m.add_fn 1) hq
          obtain ⟨out, hout⟩ := ih seen (g.add_fn 1) st1
            (by
              intro p hp
              rw [hpres]
              exact hcov p (List.mem_cons_of_mem _ hp))
          refine ⟨out, ?_⟩
          simp only [penalizeLoop]
          rw [if_neg hk, if_pos hv, hupd]
          exact hout
        · obtain ⟨st1, hupd, hpres, _⟩ := qlbmUpdate_ok (fun m => m.add_fp 1) hq
          obtain ⟨out, hout⟩ := ih seen (g.add_fp 1) st1
            (by
              intro p hp
              rw [hpres]
              exact hcov p (List.mem_cons_of_mem _ hp))
          refine ⟨out, ?_⟩
          simp only [penalizeLoop]
          rw [if_neg hk, if_neg hv, hupd]
          exact hout

/-- **C9.** With every judged query covered by an accumulator (as
`populate_ground_truth` guarantees): if some prediction row whose document
is judged has more tab-separated columns than the prediction header,
`calculate_base_metrics` fails with the `KeyError` of the column-index
lookup `index[i]`; conversely, if every such row has at most as many
columns as the header, every lookup succeeds and the scorer runs to
completion. -/
theorem C9_column_overflow_vs_header (header : String) (rows : List String)
    (truth : List (QDKey × String)) (st : EvalState)
    (hcov : ∀ p ∈ truth, (findA st.query_level_base_metrics p.1.1).isSome) :
    ((∃ row ∈ rows, (parseLine row).getD 0 "" ∈ st.documents_with_ground_truth
        ∧ (parseLine header).length < (parseLine row).length) →
      calculate_base_metrics (header :: rows) truth st = .error "KeyError: index")
    ∧ ((∀ row ∈ rows, (parseLine row).getD 0 "" ∈ st.documents_with_ground_truth →
        (parseLine row).length ≤ (parseLine header).length) →
      ∃ out, calculate_base_metrics (header :: rows) truth st = .ok out) := by
  have hidx : ∀ i, (findA (populate_index_map (header :: rows)) i).isSome ↔
      (1 ≤ i ∧ i < (parseLine header).length) := by
    intro i
    rw [populate_index_map_find]
    by_cases hc : 1 ≤ i ∧ i < (parseLine header).length
    · simp [hc]
    · simp [hc]
  constructor
  · intro hbad
    have herr := predRows_err rows (parseLine header).length
      (populate_index_map (header :: rows)) truth BaseMetrics.init st []
      (parseLine_length_pos header) hidx hcov hbad
    simp only [calculate_base_metrics]
    rw [herr]
    rfl
  · intro hgood
    obtain ⟨out1, hout1, hcov1⟩ := predRows_ok rows (parseLine header).length
      (populate_index_map (header :: rows)) truth BaseMetrics.init st [] hidx hcov hgood
    obtain ⟨g1, st1, seen1⟩ := out1
    obtain ⟨out2, hout2⟩ := penalizeLoop_ok truth seen1 g1 st1 (fun p hp => hcov1 p hp)
    refine ⟨out2, ?_⟩
    simp only [calculate_base_metrics]
    rw [hout1]
    exact hout2

/-- Witness for C9: a judged-document row with three columns against a
two-column header makes the scorer fail with the index `KeyError`. -/
theorem C9_column_overflow_vs_header_witness :
    (∀ p ∈ [((("Q1" : String), ("D1" : String)), "1")],
      (findA (⟨[("Q1", BaseMetrics.init)], [("Q1", Metrics.init)], ["D1"]⟩ :
        EvalState).query_level_base_metrics p.1.1).isSome)
    ∧ calculate_base_metrics ["doc\tQ1\n", "D1\t1\t0\n"]
        [((("Q1" : String), ("D1" : String)), "1")]
        (⟨[("Q1", BaseMetrics.init)], [("Q1", Metrics.init)], ["D1"]⟩ : EvalState) =
      .error "KeyError: index" :=
  ⟨by decide,
   (C9_column_overflow_vs_header "doc\tQ1\n" ["D1\t1\t0\n"]
      [((("Q1" : String), ("D1" : String)), "1")]
      (⟨[("Q1", BaseMetrics.init)], [("Q1", Metrics.init)], ["D1"]⟩ : EvalState)
      (by decide)).1 ⟨"D1\t1\t0\n", by decide, by decide, by decide⟩⟩

/-! ## C10: cells outside the judgment table never affect the counters -/

/-- Agreement of two prediction rows on everything the scorer reads: equal
document identifiers, and — only when that document is judged — equal column
counts and equal cells at every position whose `(query, doc)` pair is in
the judgment table.  Cells of unjudged pairs, and the entire body of a row
whose document has no judgment, are unconstrained. -/
def rowAgree (index : List (ℕ × String)) (truth : List (QDKey × String))
    (docs : List String) (r1 r2 : String) : Bool :=
  decide ((parseLine r1).getD 0 "" = (parseLine r2).getD 0 "") &&
  (!decide ((parseLine r1).getD 0 "" ∈ docs) ||
    (decide ((parseLine r1).length = (parseLine r2).length) &&
     (List.range' 1 ((parseLine r1).length - 1)).all (fun i =>
       match findA index i with
       | none => true
       | some q =>
           if (findA truth (q, (parseLine r1).getD 0 "")).isSome then
             decide ((parseLine r1).getD i "" = (parseLine r2).getD i "")
           else true)))

theorem predCols_docs :
    ∀ (is : List ℕ) (index : List (ℕ × String)) (truth : List (QDKey × String))
      (doc_id : String) (arr : List String) (g : BaseMetrics) (st : EvalState)
      (seen : List QDKey) (out : BaseMetrics × EvalState × List QDKey),
      predCols index truth doc_id arr is (g, st, seen) = .ok out →
      out.2.1.documents_with_ground_truth = st.documents_with_ground_truth := by
  intro is
  induction is with
  | nil =>
      intro index truth doc_id arr g st seen out hrun
      have h : (g, st, seen) = out := Except.ok.inj hrun
      subst h
      rfl
  | cons i rest ih =>
      intro index truth doc_id arr g st seen out hrun
      cases hqid : findA index i with
      | none => simp only [predCols, hqid] at hrun; exact Except.noConfusion hrun
      | some qid =>
          cases htv : findA truth (qid, doc_id) with
          | none =>
              simp only [predCols, hqid, htv] at hrun
              exact ih index truth doc_id arr g st seen out hrun
          | some tv =>
              simp only [predCols, hqid, htv] at hrun
              by_cases hseen : (qid, doc_id) ∈ seen
              · rw [if_pos hseen] at hrun
                exact ih index truth doc_id arr g st seen out hrun
              · rw [if_neg hseen] at hrun
                by_cases hc1 : tv = arr.getD i ""
                · rw [if_pos hc1] at hrun
                  by_cases hc2 : arr.getD i "" = "1"
                  · rw [if_pos hc2] at hrun
                    obtain ⟨st1, hupd, hrest⟩ := except_bind_eq_ok hrun
                    obtain ⟨m0, _, hst1⟩ := qlbmUpdate_eq_ok hupd
                    subst hst1
                    have hdocs := ih index truth doc_id arr _ _ _ out hrest
                    exact hdocs
                  · rw [if_neg hc2] at hrun
                    obtain ⟨st1, hupd, hrest⟩ := except_bind_eq_ok hrun
                    obtain ⟨m0, _, hst1⟩ := qlbmUpdate_eq_ok hupd
                    subst hst1
                    have hdocs := ih index truth doc_id arr _ _ _ out hrest
                    exact hdocs
                · rw [if_neg hc1] at hrun
                  by_cases hc2 : tv = "1"
                  · rw [if_pos hc2] at hrun
                    obtain ⟨st1, hupd, hrest⟩ := except_bind_eq_ok hrun
                    obtain ⟨m0, _, hst1⟩ := qlbmUpdate_eq_ok hupd
                    subst hst1
                    have hdocs := ih index truth doc_id arr _ _ _ out hrest
                    exact hdocs
                  · rw [if_neg hc2] at hrun
                    obtain ⟨st1, hupd, hrest⟩ := except_bind_eq_ok hrun
                    obtain ⟨m0, _, hst1⟩ := qlbmUpdate_eq_ok hupd
                    subst hst1
                    have hdocs := ih index truth doc_id arr _ _ _ out hrest
                    exact hdocs

theorem predCols_congr :
    ∀ (is : List ℕ) (index : List (ℕ × String)) (truth : List (QDKey × String))
      (doc_id : String) (a1 a2 : List String)
      (acc : BaseMetrics × EvalState × List QDKey),
      (∀ i ∈ is, ∀ q, findA index i = some q →
        (findA truth (q, doc_id)).isSome → a1.getD i "" = a2.getD i "") →
      predCols index truth doc_id a1 is acc = predCols index truth doc_id a2 is acc := by
  intro is
  induction is with
  | nil => intro index truth doc_id a1 a2 acc _; rfl
  | cons i rest ih =>
      intro index truth doc_id a1 a2 acc hcells
      obtain ⟨g, st, seen⟩ := acc
      have hrest : ∀ j ∈ rest, ∀ q, findA index j = some q →
          (findA truth (q, doc_id)).isSome → a1.getD j "" = a2.getD j "" :=
        fun j hj => hcells j (List.mem_cons_of_mem _ hj)
      cases hqid : findA index i with
      | none => simp only [predCols, hqid]
      | some qid =>
          cases htv : findA truth (qid, doc_id) with
          | none =>
              simp only [predCols, hqid, htv]
              exact ih index truth doc_id a1 a2 (g, st, seen) hrest
          | some tv =>
              have hcell : a1.getD i "" = a2.getD i "" :=
                hcells i (by simp) qid hqid (by rw [htv]; rfl)
              simp only [predCols, hqid, htv]
              rw [← hcell]
              by_cases hseen : (qid, doc_id) ∈ seen
              · rw [if_pos hseen, if_pos hseen]
                exact ih index truth doc_id a1 a2 (g, st, seen) hrest
              · rw [if_neg hseen, if_neg hseen]
                by_cases hc1 : tv = a1.getD i ""
                · rw [if_pos hc1, if_pos hc1]
                  by_cases hc2 : a1.getD i "" = "1"
                  · rw [if_pos hc2, if_pos hc2]
                    cases hupd : qlbmUpdate st qid (fun m => m.add_tp 1) with
                    | error e => rfl
                    | ok st1 => exact ih index truth doc_id a1 a2 _ hrest
                  · rw [if_neg hc2, if_neg hc2]
                    cases hupd : qlbmUpdate st qid (fun m => m.add_tn 1) with
                    | error e => rfl
                    | ok st1 => exact ih index truth doc_id a1 a2 _ hrest
                · rw [if_neg hc1, if_neg hc1]
                  by_cases hc2 : tv = "1"
                  · rw [if_pos hc2, if_pos hc2]
                    cases hupd : qlbmUpdate st qid (fun m => m.add_fn 1) with
                    | error e => rfl
                    | ok st1 => exact ih index truth doc_id a1 a2 _ hrest
                  · rw [if_neg hc2, if_neg hc2]
                    cases hupd : qlbmUpdate st qid (fun m => m.add_fp 1) with
                    | error e => rfl
                    | ok st1 => exact ih index truth doc_id a1 a2 _ hrest

theorem rowAgree_spec {index : List (ℕ × String)} {truth : List (QDKey × String)}
    {docs : List String} {r1 r2 : String}
    (h : rowAgree index truth docs r1 r2 = true) :
    (parseLine r1).getD 0 "" = (parseLine r2).getD 0 ""
    ∧ ((parseLine r1).getD 0 "" ∈ docs →
        (parseLine r1).length = (parseLine r2).length
        ∧ ∀ i ∈ List.range' 1 ((parseLine r1).length - 1), ∀ q,
            findA index i = some q →
            (findA truth (q, (parseLine r1).getD 0 "")).isSome →
            (parseLine r1).getD i "" = (parseLine r2).getD i "") := by
  unfold rowAgree at h
  rw [Bool.and_eq_true] at h
  refine ⟨of_decide_eq_true h.1, ?_⟩
  intro hmem
  have h2 := h.2
  rw [Bool.or_eq_true] at h2
  rcases h2 with h2 | h2
  · rw [Bool.not_eq_true', decide_eq_false_iff_not] at h2
    exact absurd hmem h2
  · rw [Bool.and_eq_true] at h2
    refine ⟨of_decide_eq_true h2.1, ?_⟩
    intro i hi q hq hsome
    have hall := List.all_eq_true.1 h2.2 i hi
    rw [hq] at hall
    simp only [hsome, if_true] at hall
    exact of_decide_eq_true hall

theorem predRows_congr :
    ∀ (rows1 rows2 : List String) (index : List (ℕ × String))
      (truth : List (QDKey × String)) (docs0 : List String) (g : BaseMetrics)
      (st : EvalState) (seen : List QDKey),
      st.documents_with_ground_truth = docs0 →
      rows1.length = rows2.length →
      (∀ p ∈ rows1.zip rows2, rowAgree index truth docs0 p.1 p.2 = true) →
      predRows index truth rows1 (g, st, seen) =
        predRows index truth rows2 (g, st, seen) := by
  intro rows1
  induction rows1 with
  | nil =>
      intro rows2 index truth docs0 g st seen _ hlen _
      have h2 : rows2 = [] := List.eq_nil_of_length_eq_zero hlen.symm
      subst h2; rfl
  | cons r1 rest1 ih =>
      intro rows2 index truth docs0 g st seen hdocs hlen hagree
      cases rows2 with
      | nil => simp at hlen
      | cons r2 rest2 =>
          have hpair : rowAgree index truth docs0 r1 r2 = true := by
            refine hagree (r1, r2) ?_
            rw [List.zip_cons_cons]
            exact List.mem_cons_self _ _
          have htail : ∀ p ∈ rest1.zip rest2, rowAgree index truth docs0 p.1 p.2 = true := by
            intro p hp
            refine hagree p ?_
            rw [List.zip_cons_cons]
            exact List.mem_cons_of_mem _ hp
          have hlen' : rest1.length = rest2.length := by simpa using hlen
          obtain ⟨hdoc_eq, hjud⟩ := rowAgree_spec hpair
          by_cases hmem : (parseLine r1).getD 0 "" ∈ st.documents_with_ground_truth
          · have hmem0 : (parseLine r1).getD 0 "" ∈ docs0 := by rwa [hdocs] at hmem
            obtain ⟨hL, hcells⟩ := hjud hmem0
            have hcongr := predCols_congr (List.range' 1 ((parseLine r1).length - 1))
              index truth ((parseLine r1).getD 0 "") (parseLine r1) (parseLine r2)
              (g, st, seen) hcells
            simp only [predRows]
            rw [← hdoc_eq, ← hL, if_pos hmem, if_pos hmem, ← hcongr]
            cases hpc : predCols index truth ((parseLine r1).getD 0 "") (parseLine r1)
                (List.range' 1 ((parseLine r1).length - 1)) (g, st, seen) with
            | error e => rfl
            | ok out1 =>
                obtain ⟨g1, st1, seen1⟩ := out1
                have hdocs1 : st1.documents_with_ground_truth = docs0 :=
                  (predCols_docs _ index truth _ _ g st seen (g1, st1, seen1) hpc).trans hdocs
                exact ih rest2 index truth docs0 g1 st1 seen1 hdocs1 hlen' htail
          · simp only [predRows]
            rw [← hdoc_eq, if_neg hmem, if_neg hmem]
            exact ih rest2 index truth docs0 g st seen hdocs hlen' htail

/-- **C10.** Prediction cells whose `(query, doc)` pair is not judged never
affect any counter: two prediction files with the same header that agree on
document-identifier columns and on every cell whose pair is in the judgment
table (`rowAgree`) produce identical results from `calculate_base_metrics`
— the same global accumulator, the same per-query accumulators, and the
same error behaviour — whatever the other cells hold.  A row whose
document has no judgment only needs a matching document identifier; its
remaining content is arbitrary (the row is skipped). -/
theorem C10_unjudged_cells_noninterference (header : String)
    (rows1 rows2 : List String) (truth : List (QDKey × String)) (st : EvalState)
    (hlen : rows1.length = rows2.length)
    (hagree : ∀ p ∈ rows1.zip rows2,
      rowAgree (populate_index_map (header :: rows1)) truth
        st.documents_with_ground_truth p.1 p.2 = true) :
    calculate_base_metrics (header :: rows1) truth st =
      calculate_base_metrics (header :: rows2) truth st := by
  have hidx : populate_index_map (header :: rows2) =
      populate_index_map (header :: rows1) := rfl
  simp only [calculate_base_metrics]
  rw [hidx, predRows_congr rows1 rows2 (populate_index_map (header :: rows1)) truth
    st.documents_with_ground_truth BaseMetrics.init st [] rfl hlen hagree]

/-- Witness for C10: the two prediction files differ in the cell of an
unjudged document's row, yet score identically. -/
theorem C10_unjudged_cells_noninterference_witness :
    (["D1\t1\n", "D2\t0\n"] : List String).length = (["D1\t1\n", "D2\t777\n"] : List String).length
    ∧ (∀ p ∈ (["D1\t1\n", "D2\t0\n"] : List String).zip ["D1\t1\n", "D2\t777\n"],
        rowAgree (populate_index_map ["doc\tQ1\n", "D1\t1\n", "D2\t0\n"])
          [((("Q1" : String), ("D1" : String)), "1")]
          (⟨[("Q1", BaseMetrics.init)], [("Q1", Metrics.init)],
            ["D1"]⟩ : EvalState).documents_with_ground_truth p.1 p.2 = true)
    ∧ calculate_base_metrics ["doc\tQ1\n", "D1\t1\n", "D2\t0\n"]
        [((("Q1" : String), ("D1" : String)), "1")]
        (⟨[("Q1", BaseMetrics.init)], [("Q1", Metrics.init)], ["D1"]⟩ : EvalState) =
      calculate_base_metrics ["doc\tQ1\n", "D1\t1\n", "D2\t777\n"]
        [((("Q1" : String), ("D1" : String)), "1")]
        (⟨[("Q1", BaseMetrics.init)], [("Q1", Metrics.init)], ["D1"]⟩ : EvalState) :=
  ⟨by decide, by decide,
   C10_unjudged_cells_noninterference "doc\tQ1\n" ["D1\t1\n", "D2\t0\n"]
     ["D1\t1\n", "D2\t777\n"] [((("Q1" : String), ("D1" : String)), "1")]
     (⟨[("Q1", BaseMetrics.init)], [("Q1", Metrics.init)], ["D1"]⟩ : EvalState)
     (by decide) (by decide)⟩

/-! ## C3: each judged pair contributes exactly one count -/

def sumBM (m : BaseMetrics) : ℕ := m.tp + m.fp + m.tn + m.fn

def countQ (q : String) (l : List QDKey) : ℕ := l.countP (fun k => decide (k.1 = q))

/-- Scan-phase invariant for the query `q`: the seen set is a duplicate-free
subset of the judged keys, and `q`'s accumulator has received exactly one
count per seen pair of query `q`. -/
def InvP (truth : List (QDKey × String)) (q : String) (st : EvalState)
    (seen : List QDKey) : Prop :=
  (∀ k ∈ seen, k ∈ truth.map Prod.fst) ∧ seen.Nodup ∧
  ∃ m, findA st.query_level_base_metrics q = some m ∧ sumBM m = countQ q seen

theorem countP_split {α : Type} (l : List α) (p r : α → Bool) :
    l.countP (fun a => p a && r a) + l.countP (fun a => p a && !r a) = l.countP p := by
  induction l with
  | nil => simp
  | cons a t ih =>
      rw [List.countP_cons, List.countP_cons, List.countP_cons]
      cases hp : p a <;> cases hr : r a <;> simp [hp, hr] <;> omega

theorem seen_countP (K seen : List QDKey) (q : String)
    (hK : K.Nodup) (hs : seen.Nodup) (hsub : ∀ k ∈ seen, k ∈ K) :
    seen.countP (fun k => decide (k.1 = q)) =
      K.countP (fun k => decide (k.1 = q) && decide (k ∈ seen)) := by
  have hfil : (K.filter (fun k => decide (k ∈ seen))).Nodup := hK.filter _
  have hmemiff : ∀ x, x ∈ K.filter (fun k => decide (k ∈ seen)) ↔ x ∈ seen := by
    intro x
    rw [List.mem_filter]
    constructor
    · intro h
      exact of_decide_eq_true h.2
    · intro h
      exact ⟨hsub x h, decide_eq_true h⟩
  have hperm : List.Perm (K.filter (fun k => decide (k ∈ seen))) seen := by
    refine List.perm_of_nodup_nodup_toFinset_eq hfil hs ?_
    ext x
    simp only [List.mem_toFinset]
    exact hmemiff x
  rw [← hperm.countP_eq, List.countP_filter]

theorem sumBM_add_tp (m : BaseMetrics) : sumBM (m.add_tp 1) = sumBM m + 1 := by
  simp [sumBM, BaseMetrics.add_tp]; omega

theorem sumBM_add_tn (m : BaseMetrics) : sumBM (m.add_tn 1) = sumBM m + 1 := by
  simp [sumBM, BaseMetrics.add_tn]; omega

theorem sumBM_add_fn (m : BaseMetrics) : sumBM (m.add_fn 1) = sumBM m + 1 := by
  simp [sumBM, BaseMetrics.add_fn]; omega

theorem sumBM_add_fp (m : BaseMetrics) : sumBM (m.add_fp 1) = sumBM m + 1 := by
  simp [sumBM, BaseMetrics.add_fp]; omega

/-- The seen set extended by one scored pair of the judged keys keeps the
invariant, and the accumulator update adds exactly one count. -/
theorem InvP_extend {truth : List (QDKey × String)} {q : String} {st : EvalState}
    {seen : List QDKey} {qid doc_id tv : String} {m0 : BaseMetrics}
    (f : BaseMetrics → BaseMetrics)
    (hinv : InvP truth q st seen)
    (htv : findA truth (qid, doc_id) = some tv)
    (hseen : (qid, doc_id) ∉ seen)
    (hm0 : findA st.query_level_base_metrics qid = some m0)
    (hplus : sumBM (f m0) = sumBM m0 + 1) :
    InvP truth q
      { st with query_level_base_metrics := insertA st.query_level_base_metrics qid (f m0) }
      (setInsert seen (qid, doc_id)) := by
  obtain ⟨hsub, hnd, m, hm, hsum⟩ := hinv
  rw [setInsert_of_not_mem hseen]
  refine ⟨?_, ?_, ?_⟩
  · intro k hk
    rcases List.mem_append.1 hk with h | h
    · exact hsub k h
    · have hk0 : k = (qid, doc_id) := by simpa using h
      subst hk0
      exact List.mem_map.2 ⟨((qid, doc_id), tv), findA_mem htv, rfl⟩
  · rw [List.nodup_append]
    exact ⟨hnd, List.nodup_singleton _, by simpa [List.disjoint_singleton] using hseen⟩
  · show ∃ m', findA (insertA st.query_level_base_metrics qid (f m0)) q = some m' ∧
      sumBM m' = countQ q (seen ++ [(qid, doc_id)])
    rw [findA_insertA]
    by_cases hqq : q = qid
    · subst hqq
      have hmm : m = m0 := Option.some.inj (hm.symm.trans hm0)
      subst hmm
      refine ⟨f m, if_pos rfl, ?_⟩
      rw [hplus, hsum]
      unfold countQ
      rw [List.countP_append]
      simp
    · refine ⟨m, by rw [if_neg hqq]; exact hm, ?_⟩
      rw [hsum]
      unfold countQ
      rw [List.countP_append]
      have : decide (((qid, doc_id) : QDKey).1 = q) = false :=
        decide_eq_false (fun e => hqq e.symm)
      simp [this]

theorem predCols_invP :
    ∀ (is : List ℕ) (index : List (ℕ × String)) (truth : List (QDKey × String))
      (q : String) (doc_id : String) (arr : List String) (g : BaseMetrics)
      (st : EvalState) (seen : List QDKey) (out : BaseMetrics × EvalState × List QDKey),
      predCols index truth doc_id arr is (g, st, seen) = .ok out →
      InvP truth q st seen → InvP truth q out.2.1 out.2.2 := by
  intro is
  induction is with
  | nil =>
      intro index truth q doc_id arr g st seen out hrun hinv
      have h : (g, st, seen) = out := Except.ok.inj hrun
      subst h
      exact hinv
  | cons i rest ih =>
      intro index truth q doc_id arr g st seen out hrun hinv
      cases hqid : findA index i with
      | none => simp only [predCols, hqid] at hrun; exact Except.noConfusion hrun
      | some qid =>
          cases htv : findA truth (qid, doc_id) with
          | none =>
              simp only [predCols, hqid, htv] at hrun
              exact ih index truth q doc_id arr g st seen out hrun hinv
          | some tv =>
              simp only [predCols, hqid, htv] at hrun
              by_cases hseen : (qid, doc_id) ∈ seen
              · rw [if_pos hseen] at hrun
                exact ih index truth q doc_id arr g st seen out hrun hinv
              · rw [if_neg hseen] at hrun
                by_cases hc1 : tv = arr.getD i ""
                · rw [if_pos hc1] at hrun
                  by_cases hc2 : arr.getD i "" = "1"
                  · rw [if_pos hc2] at hrun
                    obtain ⟨st1, hupd, hrest⟩ := except_bind_eq_ok hrun
                    obtain ⟨m0, hm0, hst1⟩ := qlbmUpdate_eq_ok hupd
                    subst hst1
                    exact ih index truth q doc_id arr _ _ _ out hrest
                      (InvP_extend (fun m => m.add_tp 1) hinv htv hseen hm0 (sumBM_add_tp m0))
                  · rw [if_neg hc2] at hrun
                    obtain ⟨st1, hupd, hrest⟩ := except_bind_eq_ok hrun
                    obtain ⟨m0, hm0, hst1⟩ := qlbmUpdate_eq_ok hupd
                    subst hst1
                    exact ih index truth q doc_id arr _ _ _ out hrest
                      (InvP_extend (fun m => m.add_tn 1) hinv htv hseen hm0 (sumBM_add_tn m0))
                · rw [if_neg hc1] at hrun
                  by_cases hc2 : tv = "1"
                  · rw [if_pos hc2] at hrun
                    obtain ⟨st1, hupd, hrest⟩ := except_bind_eq_ok hrun
                    obtain ⟨m0, hm0, hst1⟩ := qlbmUpdate_eq_ok hupd
                    subst hst1
                    exact ih index truth q doc_id arr _ _ _ out hrest
                      (InvP_extend (fun m => m.add_fn 1) hinv htv hseen hm0 (sumBM_add_fn m0))
                  · rw [if_neg hc2] at hrun
                    obtain ⟨st1, hupd, hrest⟩ := except_bind_eq_ok hrun
                    obtain ⟨m0, hm0, hst1⟩ := qlbmUpdate_eq_ok hupd
                    subst hst1
                    exact ih index truth q doc_id arr _ _ _ out hrest
                      (InvP_extend (fun m => m.add_fp 1) hinv htv hseen hm0 (sumBM_add_fp m0))

theorem predRows_invP :
    ∀ (rows : List String) (index : List (ℕ × String)) (truth : List (QDKey × String))
      (q : String) (g : BaseMetrics) (st : EvalState) (seen : List QDKey)
      (out : BaseMetrics × EvalState × List QDKey),
      predRows index truth rows (g, st, seen) = .ok out →
      InvP truth q st seen → InvP truth q out.2.1 out.2.2 := by
  intro rows
  induction rows with
  | nil =>
      intro index truth q g st seen out hrun hinv
      have h : (g, st, seen) = out := Except.ok.inj hrun
      subst h
      exact hinv
  | cons row rest ih =>
      intro index truth q g st seen out hrun hinv
      simp only [predRows] at hrun
      by_cases hdoc : (parseLine row).getD 0 "" ∈ st.documents_with_ground_truth
      · rw [if_pos hdoc] at hrun
        obtain ⟨acc1, hcols, hrest⟩ := except_bind_eq_ok hrun
        obtain ⟨g1, st1, seen1⟩ := acc1
        have hinv1 := predCols_invP (List.range' 1 ((parseLine row).length - 1)) index
          truth q ((parseLine row).getD 0 "") (parseLine row) g st seen
          (g1, st1, seen1) hcols hinv
        exact ih index truth q g1 st1 seen1 out hrest hinv1
      · rw [if_neg hdoc] at hrun
        exact ih index truth q g st seen out hrun hinv

/-- **C3.** For any query `q` whose accumulator starts zeroed (as
`populate_ground_truth` allocates it) and any successful run of
`calculate_base_metrics` on a judgment table with distinct keys (as a
Python dict guarantees), the final accumulator of `q` satisfies
tp + fp + tn + fn = number of judged pairs of `q`: every judged pair
contributes exactly one count — scored pairs once via the scan (duplicates
in the prediction file are ignored by the seen-set), and unscored pairs
once via the imputation sweep. -/
theorem C3_each_judged_pair_counts_once (pred : List String)
    (truth : List (QDKey × String)) (st : EvalState) (q : String)
    (g' : BaseMetrics) (st' : EvalState)
    (hnd : (truth.map Prod.fst).Nodup)
    (hq : findA st.query_level_base_metrics q = some BaseMetrics.init)
    (hrun : calculate_base_metrics pred truth st = .ok (g', st')) :
    ∃ m, findA st'.query_level_base_metrics q = some m
      ∧ m.tp + m.fp + m.tn + m.fn =
          (truth.filter (fun e => decide (e.1.1 = q))).length := by
  cases pred with
  | nil => exact absurd hrun (by simp [calculate_base_metrics])
  | cons header rows =>
      simp only [calculate_base_metrics] at hrun
      obtain ⟨out1, hscan, hpen⟩ := except_bind_eq_ok hrun
      obtain ⟨g1, st1, seen1⟩ := out1
      have hinv0 : InvP truth q st [] :=
        ⟨fun k hk => absurd hk (List.not_mem_nil k), List.nodup_nil,
          BaseMetrics.init, hq, by simp [sumBM, BaseMetrics.init, countQ]⟩
      have hinv1 := predRows_invP rows (populate_index_map (header :: rows)) truth q
        BaseMetrics.init st [] (g1, st1, seen1) hscan hinv0
      obtain ⟨hsub, hnds, m1, hm1, hsum1⟩ := hinv1
      obtain ⟨_, hper⟩ := penalizeLoop_spec truth seen1 g1 st1 g' st' hpen
      obtain ⟨m', hm', hfn, hfp, htp, htn⟩ := hper q m1 hm1
      refine ⟨m', hm', ?_⟩
      have hsplitA : truth.countP (fun e =>
            (decide (e.1.1 = q) && decide (e.1 ∉ seen1)) && decide (e.2 = "1")) +
          truth.countP (fun e =>
            (decide (e.1.1 = q) && decide (e.1 ∉ seen1)) && !decide (e.2 = "1")) =
          truth.countP (fun e => decide (e.1.1 = q) && decide (e.1 ∉ seen1)) :=
        countP_split truth _ _
      have hA : truth.countP (fun e =>
            decide (e.1.1 = q) && (decide (e.1 ∉ seen1) && decide (e.2 = "1"))) =
          truth.countP (fun e =>
            (decide (e.1.1 = q) && decide (e.1 ∉ seen1)) && decide (e.2 = "1")) :=
        List.countP_congr (fun e _ => by rw [Bool.and_assoc])
      have hB : truth.countP (fun e =>
            decide (e.1.1 = q) && (decide (e.1 ∉ seen1) && !decide (e.2 = "1"))) =
          truth.countP (fun e =>
            (decide (e.1.1 = q) && decide (e.1 ∉ seen1)) && !decide (e.2 = "1")) :=
        List.countP_congr (fun e _ => by rw [Bool.and_assoc])
      have hsumadd : m'.tp + m'.fp + m'.tn + m'.fn =
          sumBM m1 + truth.countP (fun e =>
            decide (e.1.1 = q) && decide (e.1 ∉ seen1)) := by
        rw [htp, hfp, htn, hfn, hA, hB]
        unfold sumBM
        omega
      have hseq : countQ q seen1 =
          truth.countP (fun e => decide (e.1.1 = q) && decide (e.1 ∈ seen1)) := by
        unfold countQ
        rw [seen_countP (truth.map Prod.fst) seen1 q hnd hnds hsub, List.countP_map]
        rfl
      have hcongrB : truth.countP (fun e => decide (e.1.1 = q) && decide (e.1 ∉ seen1)) =
          truth.countP (fun e => decide (e.1.1 = q) && !decide (e.1 ∈ seen1)) :=
        List.countP_congr (fun e _ => by rw [decide_not])
      have hfinal : truth.countP (fun e => decide (e.1.1 = q) && decide (e.1 ∈ seen1)) +
          truth.countP (fun e => decide (e.1.1 = q) && decide (e.1 ∉ seen1)) =
          truth.countP (fun e => decide (e.1.1 = q)) := by
        rw [hcongrB]
        exact countP_split truth _ _
      rw [hsumadd, hsum1, hseq, ← List.countP_eq_length_filter]
      omega

/-- Witness for C3: two judged pairs for Q1, one scored (despite a
duplicate prediction row), one imputed; the accumulator totals exactly 2. -/
theorem C3_each_judged_pair_counts_once_witness :
    (([((("Q1" : String), ("D1" : String)), "1"),
        ((("Q1" : String), ("D2" : String)), "-1")].map Prod.fst).Nodup)
    ∧ findA (⟨[("Q1", BaseMetrics.init)], [("Q1", Metrics.init)],
        ["D1", "D2"]⟩ : EvalState).query_level_base_metrics "Q1" = some BaseMetrics.init
    ∧ calculate_base_metrics ["doc\tQ1\n", "D1\t1\n", "D1\t1\n"]
        [((("Q1" : String), ("D1" : String)), "1"),
          ((("Q1" : String), ("D2" : String)), "-1")]
        (⟨[("Q1", BaseMetrics.init)], [("Q1", Metrics.init)], ["D1", "D2"]⟩ : EvalState) =
      .ok (⟨1, 1, 0, 0⟩,
        (⟨[("Q1", ⟨1, 1, 0, 0⟩)], [("Q1", Metrics.init)], ["D1", "D2"]⟩ : EvalState))
    ∧ ∃ m, findA (⟨[("Q1", ⟨1, 1, 0, 0⟩)], [("Q1", Metrics.init)],
          ["D1", "D2"]⟩ : EvalState).query_level_base_metrics "Q1" = some m
        ∧ m.tp + m.fp + m.tn + m.fn =
            ([((("Q1" : String), ("D1" : String)), "1"),
              ((("Q1" : String), ("D2" : String)), "-1")].filter
              (fun e => decide (e.1.1 = "Q1"))).length :=
  ⟨by decide, by decide, by decide,
   C3_each_judged_pair_counts_once ["doc\tQ1\n", "D1\t1\n", "D1\t1\n"]
     [((("Q1" : String), ("D1" : String)), "1"),
       ((("Q1" : String), ("D2" : String)), "-1")]
     (⟨[("Q1", BaseMetrics.init)], [("Q1", Metrics.init)], ["D1", "D2"]⟩ : EvalState)
     "Q1" ⟨1, 1, 0, 0⟩
     (⟨[("Q1", ⟨1, 1, 0, 0⟩)], [("Q1", Metrics.init)], ["D1", "D2"]⟩ : EvalState)
     (by decide) (by decide) (by decide)⟩

end SigirEval
